import Mathlib

/-!
# Calendar date class `Date` (laba1(new).cpp)

A shallow embedding of the C++ class `Date`.  The three `int` fields are
modelled as `Int`; C++ `/` and `%` truncate toward zero, so they are
`Int.tdiv` and `Int.tmod`.  The functions `countDays`, `Date.opSub` and
`Date.dayOfWeek` compute with exact integers; `countDays32`, `Date.opSub32`
and `Date.dayOfWeek32` are the same functions with every `int` result wrapped
around at 32 bits, and agree with the exact ones as long as nothing exceeds
the range of `int`.
A member function that mutates `*this` and may throw is a function from the
object before the call to the pair (outcome, object after the call).
-/

namespace DateModel

/-! ## Data model -/

/-- The private fields `int day, month, year` of class `Date`. -/
structure Date where
  day : Int
  month : Int
  year : Int
  deriving DecidableEq, Repr

/-- The two `std::invalid_argument` exceptions thrown by the class, told apart
by their message: "Invalid date" (from `validate`) and "Invalid string format"
(from `fromString`). -/
inductive DateError where
  | invalidDate
  | invalidFormat
  deriving DecidableEq, Repr

/-- The static members `existingCount` and `totalCreated`. -/
structure Counters where
  existingCount : Int
  totalCreated : Int
  deriving DecidableEq, Repr

/-- Largest value of a 32-bit C++ `int`. -/
def INT_MAX : Int := 2147483647

/-- Smallest value of a 32-bit C++ `int`. -/
def INT_MIN : Int := -2147483648

/-! ## Calendar primitives -/

/-- `Date::isLeapYear`: `(y % 4 == 0 && y % 100 != 0) || (y % 400 == 0)`. -/
def isLeapYear (y : Int) : Bool :=
  (y.tmod 4 == 0 && y.tmod 100 != 0) || (y.tmod 400 == 0)

/-- `Date::daysInMonth`: the `switch (m)` with cases 2, {4, 6, 9, 11} and default. -/
def daysInMonth (m y : Int) : Int :=
  if m = 2 then (if isLeapYear y then 29 else 28)
  else if m = 4 ∨ m = 6 ∨ m = 9 ∨ m = 11 then 30
  else 31

/-- `Date::isLeap`: `isLeapYear(year)`. -/
def Date.isLeap (x : Date) : Bool := isLeapYear x.year

/-- `Date::validate`: throws "Invalid date" when
`year < 1 || month < 1 || month > 12 || day < 1 || day > daysInMonth(month, year)`. -/
def Date.validate (x : Date) : Except DateError Unit :=
  if x.year < 1 ∨ x.month < 1 ∨ x.month > 12 ∨ x.day < 1
      ∨ x.day > daysInMonth x.month x.year then
    Except.error DateError.invalidDate
  else
    Except.ok ()

/-- The constructor `Date(int d, int m, int y)`: initialise the fields, run
`validate()`, and only then increment both static counters.  When `validate`
throws no object exists and the counters are untouched. -/
def Date.construct (d m y : Int) (c : Counters) : Except DateError (Date × Counters) :=
  let self : Date := ⟨d, m, y⟩
  match self.validate with
  | Except.error e => Except.error e
  | Except.ok () =>
    Except.ok (self, ⟨c.existingCount + 1, c.totalCreated + 1⟩)

/-- The class invariant as a proposition: the condition under which `validate`
does not throw. -/
def Date.Valid (x : Date) : Prop :=
  1 ≤ x.year ∧ 1 ≤ x.month ∧ x.month ≤ 12 ∧ 1 ≤ x.day ∧ x.day ≤ daysInMonth x.month x.year

instance (x : Date) : Decidable x.Valid := by
  unfold Date.Valid; exact inferInstance

/-- A date whose three fields fit the C++ type `int`, as every object of the
class does. -/
def Date.InIntRange (x : Date) : Prop :=
  INT_MIN ≤ x.day ∧ x.day ≤ INT_MAX ∧ INT_MIN ≤ x.month ∧ x.month ≤ INT_MAX
    ∧ INT_MIN ≤ x.year ∧ x.year ≤ INT_MAX

instance (x : Date) : Decidable x.InIntRange := by
  unfold Date.InIntRange; exact inferInstance

/-! ## Day arithmetic -/

/-- The body of the loop in `Date::addDays`:
`day -= daysInMonth(month, year); month++; if (month > 12) { month = 1; year++; }`. -/
def addDaysStep (x : Date) : Date :=
  let day := x.day - daysInMonth x.month x.year
  let month := x.month + 1
  if month > 12 then ⟨day, 1, x.year + 1⟩ else ⟨day, month, x.year⟩

/-- The loop `while (day > daysInMonth(month, year)) { ... }` of `Date::addDays`.
Each iteration lowers `day`, which stays positive, by at least 28. -/
def addDaysLoop (x : Date) : Date :=
  if x.day > daysInMonth x.month x.year then addDaysLoop (addDaysStep x) else x
termination_by x.day.toNat
decreasing_by
  rename_i h
  simp only [addDaysStep, daysInMonth] at h ⊢
  split_ifs at h ⊢ <;> simp only [] <;> omega

/-- `Date::addDays`: `day += days;` followed by the forward roll-over loop. -/
def Date.addDays (x : Date) (days : Int) : Date :=
  addDaysLoop { x with day := x.day + days }

/-- The body of the loop in `Date::subtractDays`:
`month--; if (month < 1) { month = 12; year--; } day += daysInMonth(month, year);`. -/
def subtractDaysStep (x : Date) : Date :=
  let month := x.month - 1
  if month < 1 then
    ⟨x.day + daysInMonth 12 (x.year - 1), 12, x.year - 1⟩
  else
    ⟨x.day + daysInMonth month x.year, month, x.year⟩

/-- The loop `while (day < 1) { ... }` of `Date::subtractDays`.  Each iteration
raises `day` by the length of the month stepped back into, at least 28. -/
def subtractDaysLoop (x : Date) : Date :=
  if x.day < 1 then subtractDaysLoop (subtractDaysStep x) else x
termination_by (1 - x.day).toNat
decreasing_by
  rename_i h
  simp only [subtractDaysStep, daysInMonth]
  split_ifs <;> simp only [] <;> omega

/-- `Date::subtractDays`: `day -= days;` followed by the backward borrow loop. -/
def Date.subtractDays (x : Date) (days : Int) : Date :=
  subtractDaysLoop { x with day := x.day - days }

/-! ## Difference and comparison -/

/-- A counting loop `for (int i = start; ...; ++i) acc += f(i);` that runs its
body `n` times. -/
def forSum (f : Int → Int) : Nat → Int → Int → Int
  | 0, _, acc => acc
  | n + 1, i, acc => forSum f n (i + 1) (acc + f i)

/-- The lambda `countDays` in `Date::operator-`, computed exactly (the value of
`int days` as long as it does not exceed `INT_MAX`): starting from `d`, the loop
`for (i = 1; i < m; ++i)` adds `daysInMonth(i, y)` and the loop
`for (i = 1; i < y; ++i)` adds 366 or 365.  A loop `for (i = 1; i < b; ++i)`
runs `b - 1` times when `b > 1` and not at all otherwise. -/
def countDays (d m y : Int) : Int :=
  let days := d
  let days := forSum (fun i => daysInMonth i y) (m - 1).toNat 1 days
  let days := forSum (fun i => if isLeapYear i then 366 else 365) (y - 1).toNat 1 days
  days

/-- `Date::operator-`, computed exactly: the difference of the two absolute day
counts. -/
def Date.opSub (a b : Date) : Int :=
  countDays a.day a.month a.year - countDays b.day b.month b.year

/-- `Date::operator==`. -/
def Date.opEq (a b : Date) : Bool :=
  a.day == b.day && a.month == b.month && a.year == b.year

/-- `Date::operator<`. -/
def Date.opLt (a b : Date) : Bool :=
  if a.year ≠ b.year then decide (a.year < b.year)
  else if a.month ≠ b.month then decide (a.month < b.month)
  else decide (a.day < b.day)

/-- `Date::operator>`: `other < *this`. -/
def Date.opGt (a b : Date) : Bool := b.opLt a

/-! ## Day of week -/

/-- `Date::dayOfWeek`, computed exactly. -/
def Date.dayOfWeek (x : Date) : Int :=
  let d := x.day
  let m := if x.month < 3 then x.month + 12 else x.month
  let y := if x.month < 3 then x.year - 1 else x.year
  let w := (d + 2 * m + (3 * (m + 1)).tdiv 5 + y + y.tdiv 4 - y.tdiv 100 + y.tdiv 400).tmod 7
  (w + 6).tmod 7

/-! ## Text form -/

/-- Decimal text of an `int` as `operator<<` writes it before padding: the
digits, after a minus sign for a negative value. -/
def intRepr (v : Int) : List Char :=
  if v < 0 then '-' :: Nat.toDigits 10 v.natAbs else Nat.toDigits 10 v.toNat

/-- Formatted output `os << std::setw(width) << std::setfill(fill) << v` with the
default right adjustment: fill characters go in front, up to `width`. -/
def putInt (width : Nat) (fill : Char) (v : Int) : List Char :=
  let s := intRepr v
  List.replicate (width - s.length) fill ++ s

/-- `Date::toString`: day and month with `setw(2)` and `setfill` of the zero
digit, the year with no width (the width is reset after each output). -/
def Date.toString (x : Date) : String :=
  String.mk (putInt 2 '0' x.day ++ '.' :: putInt 2 '0' x.month ++ '.' :: putInt 0 '0' x.year)

/-- White space of the classic locale, skipped before each formatted input. -/
def isSpace (c : Char) : Bool :=
  c == ' ' || c == '\t' || c == '\n' || c == '\x0b' || c == '\x0c' || c == '\r'

/-- Skip leading white space (the `skipws` flag is set by default). -/
def skipWs : List Char → List Char
  | [] => []
  | c :: cs => if isSpace c then skipWs cs else c :: cs

/-- Value of a decimal digit character. -/
def digitVal (c : Char) : Nat := c.toNat - '0'.toNat

/-- Value of a string of decimal digits, most significant first. -/
def digitsVal (ds : List Char) : Nat :=
  ds.foldl (fun acc c => acc * 10 + digitVal c) 0

/-- An optional sign in front of the digits: `true` for a minus sign. -/
def readSign : List Char → Bool × List Char
  | [] => (false, [])
  | c :: cs => if c = '-' then (true, cs) else if c = '+' then (false, cs) else (false, c :: cs)

/-- Formatted input `is >> v` for `int v` in base ten: skip white space, read an
optional sign and the longest run of digits.  The extraction fails (`none`)
when there is no digit or when the value does not fit a 32-bit `int`; on
success it gives the value and the unread rest of the stream. -/
def extractInt (s : List Char) : Option (Int × List Char) :=
  let sg := readSign (skipWs s)
  let ds := sg.2.takeWhile Char.isDigit
  let rest := sg.2.dropWhile Char.isDigit
  if ds.isEmpty then none
  else
    let v : Int := if sg.1 then -(digitsVal ds : Int) else (digitsVal ds : Int)
    if v < INT_MIN ∨ INT_MAX < v then none else some (v, rest)

/-- Formatted input `is >> c` for `char c`: skip white space and read one
character; fails at the end of the stream. -/
def extractChar (s : List Char) : Option (Char × List Char) :=
  match skipWs s with
  | [] => none
  | c :: cs => some (c, cs)

/-- The chain `iss >> d >> dot1 >> m >> dot2 >> y`: once one extraction fails
the later ones do nothing and the stream tests false. -/
def extractFields (s : List Char) : Option (Int × Char × Int × Char × Int) :=
  match extractInt s with
  | none => none
  | some (d, s1) =>
    match extractChar s1 with
    | none => none
    | some (dot1, s2) =>
      match extractInt s2 with
      | none => none
      | some (m, s3) =>
        match extractChar s3 with
        | none => none
        | some (dot2, s4) =>
          match extractInt s4 with
          | none => none
          | some (y, _) => some (d, dot1, m, dot2, y)

/-- `Date::fromString`: the outcome together with the object after the call.
When the extraction succeeds and both separators are dots the three fields are
assigned and `validate()` runs on them; otherwise "Invalid string format" is
thrown with the object untouched. -/
def Date.fromString (x : Date) (str : String) : Except DateError Unit × Date :=
  match extractFields str.data with
  | some (d, dot1, m, dot2, y) =>
    if dot1 = '.' ∧ dot2 = '.' then
      let self : Date := ⟨d, m, y⟩
      (self.validate, self)
    else
      (Except.error DateError.invalidFormat, x)
  | none => (Except.error DateError.invalidFormat, x)

/-- A decimal text for the integer `v` as it can stand in a date text: for a
non-negative value the digits, padded in front with zeros up to the width `w`
(as `toString` writes day and month); for a negative value a minus sign and
the digits. -/
def fieldText (w : Nat) (v : Int) : List Char :=
  if 0 ≤ v then putInt w '0' v else intRepr v

/-! ## Setters -/

/-- `Date::setDay`: assign, validate, and on an exception restore the old day
and rethrow. -/
def Date.setDay (x : Date) (d : Int) : Except DateError Unit × Date :=
  let oldDay := x.day
  let self : Date := { x with day := d }
  match self.validate with
  | Except.ok () => (Except.ok (), self)
  | Except.error e => (Except.error e, { self with day := oldDay })

/-- `Date::setMonth`: assign, validate, and on an exception restore the old
month and rethrow. -/
def Date.setMonth (x : Date) (m : Int) : Except DateError Unit × Date :=
  let oldMonth := x.month
  let self : Date := { x with month := m }
  match self.validate with
  | Except.ok () => (Except.ok (), self)
  | Except.error e => (Except.error e, { self with month := oldMonth })

/-- `Date::setYear`: assign, validate, and on an exception restore the old
year and rethrow. -/
def Date.setYear (x : Date) (y : Int) : Except DateError Unit × Date :=
  let oldYear := x.year
  let self : Date := { x with year := y }
  match self.validate with
  | Except.ok () => (Except.ok (), self)
  | Except.error e => (Except.error e, { self with year := oldYear })

/-! ## Object counters -/

/-- The copy constructor `Date(const Date& other)`: copies the three fields
without validating and increments both static counters. -/
def Date.copy (other : Date) (c : Counters) : Date × Counters :=
  (⟨other.day, other.month, other.year⟩, ⟨c.existingCount + 1, c.totalCreated + 1⟩)

/-- The destructor `~Date()`: decrements `existingCount` only. -/
def Date.destruct (c : Counters) : Counters :=
  ⟨c.existingCount - 1, c.totalCreated⟩

/-- The events of a run that touch the static counters: a call of the
constructor with three arguments, a call with none (the defaults 1, 1, 2000),
a copy construction, and the destruction of an object. -/
inductive CounterOp where
  | construct (d m y : Int)
  | constructDefault
  | copy (other : Date)
  | destroy
  deriving Repr

/-- The counters after one event.  A constructor call that throws leaves them
as they were. -/
def CounterOp.apply (c : Counters) : CounterOp → Counters
  | CounterOp.construct d m y =>
    match Date.construct d m y c with
    | Except.ok r => r.2
    | Except.error _ => c
  | CounterOp.constructDefault =>
    match Date.construct 1 1 2000 c with
    | Except.ok r => r.2
    | Except.error _ => c
  | CounterOp.copy other => (Date.copy other c).2
  | CounterOp.destroy => Date.destruct c

/-- The counters after a sequence of events. -/
def runOps (ops : List CounterOp) (c : Counters) : Counters :=
  ops.foldl CounterOp.apply c

/-- Whether an event is a construction that produces an object: a copy, or a
constructor call whose `validate()` does not throw. -/
def CounterOp.constructs : CounterOp → Bool
  | CounterOp.construct d m y =>
    match (Date.mk d m y).validate with
    | Except.ok _ => true
    | Except.error _ => false
  | CounterOp.constructDefault =>
    match (Date.mk 1 1 2000).validate with
    | Except.ok _ => true
    | Except.error _ => false
  | CounterOp.copy _ => true
  | CounterOp.destroy => false

/-- Whether an event is a destruction. -/
def CounterOp.destroys : CounterOp → Bool
  | CounterOp.destroy => true
  | _ => false

/-- Number of successful constructions in a sequence of events. -/
def successfulConstructions (ops : List CounterOp) : Nat :=
  (ops.filter CounterOp.constructs).length

/-- Number of destructions in a sequence of events. -/
def destructions (ops : List CounterOp) : Nat :=
  (ops.filter CounterOp.destroys).length

/-! ## Week number -/

/-- `Date::weekNumber`: builds the local object `firstJan(1, 1, year)` (the
constructor may throw), takes `*this - firstJan`, and returns
`daysPassed / 7 + 1`; the local object is destroyed on return. -/
def Date.weekNumber (x : Date) (c : Counters) : Except DateError (Int × Counters) :=
  match Date.construct 1 1 x.year c with
  | Except.error e => Except.error e
  | Except.ok (firstJan, c1) =>
    let daysPassed := x.opSub firstJan
    Except.ok (daysPassed.tdiv 7 + 1, Date.destruct c1)

/-! ## Loops with an iteration budget -/

/-- The loop of `Date::addDays` run for at most `fuel` iterations: `none` when
the budget is used up before the loop condition turns false. -/
def addDaysFuel : Nat → Date → Option Date
  | 0, _ => none
  | fuel + 1, x =>
    if x.day > daysInMonth x.month x.year then addDaysFuel fuel (addDaysStep x) else some x

/-- The loop of `Date::subtractDays` run for at most `fuel` iterations. -/
def subtractDaysFuel : Nat → Date → Option Date
  | 0, _ => none
  | fuel + 1, x =>
    if x.day < 1 then subtractDaysFuel fuel (subtractDaysStep x) else some x

/-! ## Closed form of the day count -/

/-- The absolute day count as the specification words it, with the loop over
the years replaced by the Gregorian closed form:
`d + sum_{i<m} daysInMonth(i, y) + 365*(y-1) + floor((y-1)/4) - floor((y-1)/100)
+ floor((y-1)/400)`. -/
def countDaysClosed (d m y : Int) : Int :=
  d + (∑ i in Finset.Ico 1 m, daysInMonth i y)
    + 365 * (y - 1) + (y - 1) / 4 - (y - 1) / 100 + (y - 1) / 400

/-! ## The two partial sums of the day count -/

/-- What the first loop of `countDays` adds: the days of the months before
month `m` in year `y`. -/
def daysBeforeMonth (m y : Int) : Int :=
  forSum (fun i => daysInMonth i y) (m - 1).toNat 1 0

/-- What the second loop of `countDays` adds: the days of the years before
year `y`. -/
def daysBeforeYear (y : Int) : Int :=
  forSum (fun i => if isLeapYear i then 366 else 365) (y - 1).toNat 1 0

/-! ## The same computations in 32-bit `int` -/

/-- The value an `int` holds when the exact result of an operation is `v`: the
result wraps around at 32 bits (two's complement). -/
def wrap32 (v : Int) : Int :=
  (v + 2147483648) % 4294967296 - 2147483648

/-- The counting loop `for (int i = start; ...; ++i) acc += f(i);` with the
`int` accumulator wrapping around after each addition. -/
def forSum32 (f : Int → Int) : Nat → Int → Int → Int
  | 0, _, acc => acc
  | n + 1, i, acc => forSum32 f n (i + 1) (wrap32 (acc + f i))

/-- The lambda `countDays` of `Date::operator-` with `int days` wrapping around
at 32 bits. -/
def countDays32 (d m y : Int) : Int :=
  let days := d
  let days := forSum32 (fun i => daysInMonth i y) (m - 1).toNat 1 days
  let days := forSum32 (fun i => if isLeapYear i then 366 else 365) (y - 1).toNat 1 days
  days

/-- `Date::operator-` in 32-bit `int`: both counts and their difference wrap
around. -/
def Date.opSub32 (a b : Date) : Int :=
  wrap32 (countDays32 a.day a.month a.year - countDays32 b.day b.month b.year)

/-- The exact value of the sum
`d + 2 * m + 3 * (m + 1) / 5 + y + y / 4 - y / 100 + y / 400` of
`Date::dayOfWeek`, after January and February have been moved to the year
before. -/
def weekdaySum (x : Date) : Int :=
  let d := x.day
  let m := if x.month < 3 then x.month + 12 else x.month
  let y := if x.month < 3 then x.year - 1 else x.year
  d + 2 * m + (3 * (m + 1)).tdiv 5 + y + y.tdiv 4 - y.tdiv 100 + y.tdiv 400

/-- `Date::dayOfWeek` in 32-bit `int`: every addition, subtraction and
multiplication wraps around, in the order in which the expression is
evaluated. -/
def Date.dayOfWeek32 (x : Date) : Int :=
  let d := x.day
  let m := if x.month < 3 then wrap32 (x.month + 12) else x.month
  let y := if x.month < 3 then wrap32 (x.year - 1) else x.year
  let s := wrap32 (d + wrap32 (2 * m))
  let s := wrap32 (s + (wrap32 (3 * wrap32 (m + 1))).tdiv 5)
  let s := wrap32 (s + y)
  let s := wrap32 (s + y.tdiv 4)
  let s := wrap32 (s - y.tdiv 100)
  let s := wrap32 (s + y.tdiv 400)
  let w := s.tmod 7
  (wrap32 (w + 6)).tmod 7

/-! ## Basic facts about the calendar primitives -/

theorem isLeapYear_eq_true_iff (y : Int) :
    isLeapYear y = true ↔ (y.tmod 4 = 0 ∧ y.tmod 100 ≠ 0) ∨ y.tmod 400 = 0 := by
  simp [isLeapYear]

theorem daysInMonth_ge (m y : Int) : 28 ≤ daysInMonth m y := by
  unfold daysInMonth
  split_ifs <;> omega

theorem daysInMonth_le (m y : Int) : daysInMonth m y ≤ 31 := by
  unfold daysInMonth
  split_ifs <;> omega

theorem validate_eq_ok_iff (x : Date) : x.validate = Except.ok () ↔ x.Valid := by
  unfold Date.validate Date.Valid
  split_ifs with h
  · constructor
    · intro h'
      cases h'
    · intro hv
      omega
  · constructor
    · intro _
      omega
    · intro _
      rfl

theorem validate_of_valid {x : Date} (h : x.Valid) : x.validate = Except.ok () :=
  (validate_eq_ok_iff x).mpr h

theorem validate_of_not_valid {x : Date} (h : ¬ x.Valid) :
    x.validate = Except.error DateError.invalidDate := by
  unfold Date.validate
  unfold Date.Valid at h
  split_ifs with h'
  · rfl
  · exfalso
    apply h
    omega

/-! ## Unfolding the two loops -/

theorem addDaysLoop_of_le {x : Date} (h : x.day ≤ daysInMonth x.month x.year) :
    addDaysLoop x = x := by
  rw [addDaysLoop]
  simp [not_lt.mpr h]

theorem addDaysLoop_of_gt {x : Date} (h : x.day > daysInMonth x.month x.year) :
    addDaysLoop x = addDaysLoop (addDaysStep x) := by
  rw [addDaysLoop]
  simp [h]

theorem subtractDaysLoop_of_ge {x : Date} (h : 1 ≤ x.day) : subtractDaysLoop x = x := by
  rw [subtractDaysLoop]
  simp [not_lt.mpr h]

theorem subtractDaysLoop_of_lt {x : Date} (h : x.day < 1) :
    subtractDaysLoop x = subtractDaysLoop (subtractDaysStep x) := by
  rw [subtractDaysLoop]
  simp [h]

/-! ## C1: construction -/

/-- C1: `Date(d, m, y)` succeeds exactly when `y >= 1`, `1 <= m <= 12` and
`1 <= d <= daysInMonth(m, y)`; on success the object holds `(d, m, y)`;
otherwise the constructor throws "Invalid date" and there is no object.
`(29, 2, 2023)` is rejected and `(29, 2, 2024)` is accepted. -/
theorem C1_construct_iff (d m y : Int) (c : Counters) :
    ((∃ r, Date.construct d m y c = Except.ok r) ↔
        (1 ≤ y ∧ 1 ≤ m ∧ m ≤ 12 ∧ 1 ≤ d ∧ d ≤ daysInMonth m y))
    ∧ (Date.construct d m y c = Except.error DateError.invalidDate ↔
        ¬ (1 ≤ y ∧ 1 ≤ m ∧ m ≤ 12 ∧ 1 ≤ d ∧ d ≤ daysInMonth m y))
    ∧ (∀ r, Date.construct d m y c = Except.ok r → r.1 = ⟨d, m, y⟩)
    ∧ Date.construct 29 2 2023 c = Except.error DateError.invalidDate
    ∧ (∃ c', Date.construct 29 2 2024 c = Except.ok (⟨29, 2, 2024⟩, c')) := by
  have key : ∀ d m y : Int, (Date.mk d m y).Valid →
      Date.construct d m y c
        = Except.ok (⟨d, m, y⟩, ⟨c.existingCount + 1, c.totalCreated + 1⟩) := by
    intro d m y hv
    simp [Date.construct, validate_of_valid hv]
  have key' : ∀ d m y : Int, ¬ (Date.mk d m y).Valid →
      Date.construct d m y c = Except.error DateError.invalidDate := by
    intro d m y hv
    simp [Date.construct, validate_of_not_valid hv]
  refine ⟨?_, ?_, ?_, ?_, ?_⟩
  · by_cases hv : (Date.mk d m y).Valid
    · constructor
      · intro _
        exact hv
      · intro _
        exact ⟨_, key d m y hv⟩
    · constructor
      · rintro ⟨r, hr⟩
        rw [key' d m y hv] at hr
        cases hr
      · intro h
        exact absurd h hv
  · by_cases hv : (Date.mk d m y).Valid
    · constructor
      · intro h
        rw [key d m y hv] at h
        cases h
      · intro h
        exact absurd hv h
    · constructor
      · intro _
        exact hv
      · intro _
        exact key' d m y hv
  · intro r hr
    by_cases hv : (Date.mk d m y).Valid
    · rw [key d m y hv] at hr
      cases hr
      rfl
    · rw [key' d m y hv] at hr
      cases hr
  · exact key' 29 2 2023 (by decide)
  · exact ⟨_, key 29 2 2024 (by decide)⟩

/-! ## C10: leap years -/

/-- C10: for every year `y >= 1`, `isLeapYear(y)` holds exactly when `y` is
divisible by 4 and (not divisible by 100 or divisible by 400), and `isLeap()`
is `isLeapYear` of the object's year; 2000 and 2024 are leap years, 1900 and
2023 are not. -/
theorem C10_isLeapYear_iff (y : Int) (hy : 1 ≤ y) :
    (isLeapYear y = true ↔ (4 ∣ y ∧ (¬ 100 ∣ y ∨ 400 ∣ y)))
    ∧ (∀ d m : Int, (Date.mk d m y).isLeap = isLeapYear y)
    ∧ isLeapYear 2000 = true ∧ isLeapYear 2024 = true
    ∧ isLeapYear 1900 = false ∧ isLeapYear 2023 = false := by
  refine ⟨?_, fun _ _ => rfl, by decide, by decide, by decide, by decide⟩
  rw [isLeapYear_eq_true_iff]
  have h0 : (0 : Int) ≤ y := by omega
  rw [Int.tmod_eq_emod h0 (by norm_num), Int.tmod_eq_emod h0 (by norm_num),
    Int.tmod_eq_emod h0 (by norm_num)]
  omega

/-- C10 at the year 2024. -/
theorem C10_isLeapYear_iff_witness :
    (1 : Int) ≤ 2024 ∧ (isLeapYear 2024 = true ↔ ((4 : Int) ∣ 2024 ∧ (¬ (100 : Int) ∣ 2024 ∨ (400 : Int) ∣ 2024))) :=
  ⟨by decide, (C10_isLeapYear_iff 2024 (by decide)).1⟩

/-! ## C5: setters -/

/-- C5: on a valid date, a setter whose new value makes the triple invalid
throws "Invalid date" and leaves all three fields (hence the formatted text) as
they were; when the new triple is valid the setter succeeds and only that field
changes. -/
theorem C5_setters (x : Date) (v : Int) (hx : x.Valid) :
    (¬ (Date.mk v x.month x.year).Valid →
        x.setDay v = (Except.error DateError.invalidDate, x)
        ∧ (x.setDay v).2.toString = x.toString)
    ∧ ((Date.mk v x.month x.year).Valid →
        x.setDay v = (Except.ok (), ⟨v, x.month, x.year⟩))
    ∧ (¬ (Date.mk x.day v x.year).Valid →
        x.setMonth v = (Except.error DateError.invalidDate, x)
        ∧ (x.setMonth v).2.toString = x.toString)
    ∧ ((Date.mk x.day v x.year).Valid →
        x.setMonth v = (Except.ok (), ⟨x.day, v, x.year⟩))
    ∧ (¬ (Date.mk x.day x.month v).Valid →
        x.setYear v = (Except.error DateError.invalidDate, x)
        ∧ (x.setYear v).2.toString = x.toString)
    ∧ ((Date.mk x.day x.month v).Valid →
        x.setYear v = (Except.ok (), ⟨x.day, x.month, v⟩)) := by
  have _ := hx
  refine ⟨?_, ?_, ?_, ?_, ?_, ?_⟩
  · intro h
    have e : x.setDay v = (Except.error DateError.invalidDate, x) := by
      simp [Date.setDay, validate_of_not_valid h]
    exact ⟨e, by rw [e]⟩
  · intro h
    simp [Date.setDay, validate_of_valid h]
  · intro h
    have e : x.setMonth v = (Except.error DateError.invalidDate, x) := by
      simp [Date.setMonth, validate_of_not_valid h]
    exact ⟨e, by rw [e]⟩
  · intro h
    simp [Date.setMonth, validate_of_valid h]
  · intro h
    have e : x.setYear v = (Except.error DateError.invalidDate, x) := by
      simp [Date.setYear, validate_of_not_valid h]
    exact ⟨e, by rw [e]⟩
  · intro h
    simp [Date.setYear, validate_of_valid h]

/-- C5 at 31.01.2023: `setMonth(2)` is refused and the date is unchanged. -/
theorem C5_setters_witness :
    (Date.mk 31 1 2023).Valid ∧ ¬ (Date.mk 31 2 2023).Valid
    ∧ (Date.mk 31 1 2023).setMonth 2 = (Except.error DateError.invalidDate, ⟨31, 1, 2023⟩) :=
  ⟨by decide, by decide,
    ((C5_setters ⟨31, 1, 2023⟩ 2 (by decide)).2.2.1 (by decide)).1⟩

/-! ## C6: difference -/

/-- C6: for valid dates `a` and `b`, `(a - b) == -(b - a)` and `(a - a) == 0`. -/
theorem C6_difference_antisymm (a b : Date) (ha : a.Valid) (hb : b.Valid) :
    a.opSub b = -(b.opSub a) ∧ a.opSub a = 0 := by
  have _ := ha
  have _ := hb
  unfold Date.opSub
  constructor <;> omega

/-- C6 at 01.03.2024 and 01.01.2023. -/
theorem C6_difference_antisymm_witness :
    (Date.mk 1 3 2024).Valid ∧ (Date.mk 1 1 2023).Valid
    ∧ (Date.mk 1 3 2024).opSub ⟨1, 1, 2023⟩ = -((Date.mk 1 1 2023).opSub ⟨1, 3, 2024⟩) :=
  ⟨by decide, by decide, (C6_difference_antisymm ⟨1, 3, 2024⟩ ⟨1, 1, 2023⟩ (by decide) (by decide)).1⟩

/-! ## C7: ordering -/

/-- C7: `==` is field-wise equality, `<` is the lexicographic order on
(year, month, day), `a > b` is `b < a`, and for valid dates exactly one of
`a == b`, `a < b`, `a > b` holds. -/
theorem C7_trichotomy (a b : Date) (ha : a.Valid) (hb : b.Valid) :
    (a.opEq b = true ↔ (a.day = b.day ∧ a.month = b.month ∧ a.year = b.year))
    ∧ (a.opLt b = true ↔ (a.year < b.year ∨ (a.year = b.year ∧
          (a.month < b.month ∨ (a.month = b.month ∧ a.day < b.day)))))
    ∧ a.opGt b = b.opLt a
    ∧ ((a.opEq b = true ∧ a.opLt b = false ∧ a.opGt b = false)
      ∨ (a.opEq b = false ∧ a.opLt b = true ∧ a.opGt b = false)
      ∨ (a.opEq b = false ∧ a.opLt b = false ∧ a.opGt b = true)) := by
  have _ := ha
  have _ := hb
  have hEq : ∀ p q : Date, p.opEq q = true ↔ (p.day = q.day ∧ p.month = q.month ∧ p.year = q.year) := by
    intro p q
    simp [Date.opEq, and_assoc]
  have hLt : ∀ p q : Date, p.opLt q = true ↔ (p.year < q.year ∨ (p.year = q.year ∧
      (p.month < q.month ∨ (p.month = q.month ∧ p.day < q.day)))) := by
    intro p q
    unfold Date.opLt
    split_ifs with h1 h2
    · simp only [decide_eq_true_eq]
      omega
    · simp only [decide_eq_true_eq]
      omega
    · simp only [decide_eq_true_eq]
      omega
  refine ⟨hEq a b, hLt a b, rfl, ?_⟩
  unfold Date.opGt
  have e1 := hEq a b
  have e2 := hLt a b
  have e3 := hLt b a
  cases h1 : a.opEq b <;> cases h2 : a.opLt b <;> cases h3 : b.opLt a <;>
    simp only [h1, h2, h3, true_iff, false_iff, Bool.false_eq_true] at e1 e2 e3 <;>
    simp <;> omega

/-- C7 at 31.12.2023 and 01.01.2024: only `<` holds. -/
theorem C7_trichotomy_witness :
    (Date.mk 31 12 2023).Valid ∧ (Date.mk 1 1 2024).Valid
    ∧ ((Date.mk 31 12 2023).opEq ⟨1, 1, 2024⟩ = false
      ∧ (Date.mk 31 12 2023).opLt ⟨1, 1, 2024⟩ = true
      ∧ (Date.mk 31 12 2023).opGt ⟨1, 1, 2024⟩ = false) :=
  ⟨by decide, by decide, by
    have h := (C7_trichotomy ⟨31, 12, 2023⟩ ⟨1, 1, 2024⟩ (by decide) (by decide)).2.2.2
    have h2 : (Date.mk 31 12 2023).opLt ⟨1, 1, 2024⟩ = true := by decide
    rcases h with h | h | h
    · rw [h.2.1] at h2
      cases h2
    · exact h
    · rw [h.2.1] at h2
      cases h2⟩

/-! ## C8: day of week -/

/-- C8: evaluation of `dayOfWeek()` at the two Mondays 01.01.2024 and
25.12.2023: the function returns 6 for both, not 0.  The sum before the final
remapping is already 0 for a Monday, and `(w + 6) % 7` turns it into 6. -/
theorem C8_dayOfWeek_mondays :
    (Date.mk 1 1 2024).Valid ∧ (Date.mk 1 1 2024).dayOfWeek = 6
    ∧ (Date.mk 25 12 2023).Valid ∧ (Date.mk 25 12 2023).dayOfWeek = 6 := by
  decide

/-! ## C9: roll-over at the end of the year -/

/-- C9: for every year `y >= 1`, `addDays(1)` turns 31.12.y into 01.01.(y+1)
and `subtractDays(1)` turns 01.01.(y+1) into 31.12.y; in particular for
y = 2023. -/
theorem C9_year_rollover (y : Int) (hy : 1 ≤ y) :
    (Date.mk 31 12 y).addDays 1 = ⟨1, 1, y + 1⟩
    ∧ (Date.mk 1 1 (y + 1)).subtractDays 1 = ⟨31, 12, y⟩
    ∧ (Date.mk 31 12 2023).addDays 1 = ⟨1, 1, 2024⟩
    ∧ (Date.mk 1 1 2024).subtractDays 1 = ⟨31, 12, 2023⟩ := by
  have _ := hy
  have fwd : ∀ z : Int, (Date.mk 31 12 z).addDays 1 = ⟨1, 1, z + 1⟩ := by
    intro z
    unfold Date.addDays
    rw [addDaysLoop_of_gt (by simp [daysInMonth])]
    rw [addDaysLoop_of_le (by simp [addDaysStep, daysInMonth])]
    simp [addDaysStep, daysInMonth]
  have bwd : ∀ z : Int, (Date.mk 1 1 (z + 1)).subtractDays 1 = ⟨31, 12, z⟩ := by
    intro z
    unfold Date.subtractDays
    rw [subtractDaysLoop_of_lt (by simp)]
    rw [subtractDaysLoop_of_ge (by simp [subtractDaysStep, daysInMonth])]
    simp [subtractDaysStep, daysInMonth]
  exact ⟨fwd y, bwd y, fwd 2023, bwd 2023⟩

/-- C9 at the year 2023. -/
theorem C9_year_rollover_witness :
    (1 : Int) ≤ 2023 ∧ (Date.mk 31 12 2023).addDays 1 = ⟨1, 1, 2023 + 1⟩
    ∧ (Date.mk 1 1 (2023 + 1)).subtractDays 1 = ⟨31, 12, 2023⟩ :=
  ⟨by decide, (C9_year_rollover 2023 (by decide)).1, (C9_year_rollover 2023 (by decide)).2.1⟩

/-! ## C2: `addDays` keeps the date valid -/

/-- The roll-over loop started on a date whose year and month are in range and
whose day is at least 1 ends on a valid date. -/
theorem addDaysLoop_valid (x : Date) (hy : 1 ≤ x.year) (hm : 1 ≤ x.month)
    (hm' : x.month ≤ 12) (hd : 1 ≤ x.day) : (addDaysLoop x).Valid := by
  induction x using addDaysLoop.induct with
  | case1 x h ih =>
    rw [addDaysLoop_of_gt h]
    have hge := daysInMonth_ge x.month x.year
    unfold addDaysStep at ih ⊢
    by_cases h12 : x.month + 1 > 12
    · simp only [h12, if_true] at ih ⊢
      exact ih (by omega) (by omega) (by omega)
        (by omega)
    · simp only [h12, if_false] at ih ⊢
      exact ih (by omega) (by omega) (by omega)
        (by omega)
  | case2 x h =>
    rw [addDaysLoop_of_le (not_lt.mp h)]
    exact ⟨hy, hm, hm', hd, not_lt.mp h⟩

/-- C2: for a valid date `x` and `n >= 0`, the date left by `x.addDays(n)` is
valid: year at least 1, month in 1..12, day between 1 and the length of the
month. -/
theorem C2_addDays_valid (x : Date) (n : Int) (hx : x.Valid) (hn : 0 ≤ n) :
    (x.addDays n).Valid := by
  obtain ⟨hy, hm, hm', hd, _⟩ := hx
  unfold Date.addDays
  exact addDaysLoop_valid _ hy hm hm' (by show 1 ≤ x.day + n; omega)

/-- C2 at 31.12.2023 with one day added. -/
theorem C2_addDays_valid_witness :
    (Date.mk 31 12 2023).Valid ∧ (0 : Int) ≤ 1 ∧ ((Date.mk 31 12 2023).addDays 1).Valid :=
  ⟨by decide, by decide, C2_addDays_valid ⟨31, 12, 2023⟩ 1 (by decide) (by decide)⟩

/-! ## C3: `subtractDays` and the first year -/

/-- The borrow loop started on a date whose month is in range ends on a date
whose month and day are in range; the year is not bounded below. -/
theorem subtractDaysLoop_month_day (x : Date) (hm : 1 ≤ x.month) (hm' : x.month ≤ 12)
    (hd : x.day ≤ daysInMonth x.month x.year) :
    1 ≤ (subtractDaysLoop x).month ∧ (subtractDaysLoop x).month ≤ 12
    ∧ 1 ≤ (subtractDaysLoop x).day
    ∧ (subtractDaysLoop x).day ≤ daysInMonth (subtractDaysLoop x).month (subtractDaysLoop x).year := by
  induction x using subtractDaysLoop.induct with
  | case1 x h ih =>
    rw [subtractDaysLoop_of_lt h]
    unfold subtractDaysStep at ih ⊢
    by_cases h1 : x.month - 1 < 1
    · simp only [h1, if_true] at ih ⊢
      exact ih (by omega) (by omega) (by omega)
    · simp only [h1, if_false] at ih ⊢
      exact ih (by omega) (by omega) (by omega)
  | case2 x h =>
    rw [subtractDaysLoop_of_ge (not_lt.mp h)]
    exact ⟨hm, hm', not_lt.mp h, hd⟩

/-- C3: evaluation of `subtractDays(1)` on the valid date 01.01.0001: the loop
steps back into December of year 0 and leaves 31.12.0000, which `validate`
rejects (`year < 1`). -/
theorem C3_subtractDays_first_day :
    (Date.mk 1 1 1).Valid ∧ (Date.mk 1 1 1).subtractDays 1 = ⟨31, 12, 0⟩
    ∧ ¬ ((Date.mk 1 1 1).subtractDays 1).Valid
    ∧ ((Date.mk 1 1 1).subtractDays 1).validate = Except.error DateError.invalidDate := by
  have e : (Date.mk 1 1 1).subtractDays 1 = ⟨31, 12, 0⟩ := by
    unfold Date.subtractDays
    rw [subtractDaysLoop_of_lt (by simp)]
    rw [subtractDaysLoop_of_ge (by simp [subtractDaysStep, daysInMonth])]
    simp [subtractDaysStep, daysInMonth]
  refine ⟨by decide, e, ?_, ?_⟩
  · rw [e]
    decide
  · rw [e]
    exact validate_of_not_valid (by decide)

/-! ## C4: formatting and parsing -/

theorem digitChar_isDigit (k : Nat) (hk : k < 10) :
    (Nat.digitChar k).isDigit = true ∧ digitVal (Nat.digitChar k) = k := by
  interval_cases k <;> decide

theorem digitsVal_append_singleton (L : List Char) (c : Char) :
    digitsVal (L ++ [c]) = digitsVal L * 10 + digitVal c := by
  simp [digitsVal, List.foldl_append]

/-- What `Nat.toDigitsCore 10` puts in front of its accumulator: a non-empty
run of digit characters whose value is the number. -/
theorem toDigitsCore_spec (fuel : Nat) : ∀ (n : Nat) (ds : List Char), n < fuel →
    ∃ L : List Char, Nat.toDigitsCore 10 fuel n ds = L ++ ds ∧ L ≠ []
      ∧ (∀ c ∈ L, c.isDigit = true) ∧ digitsVal L = n := by
  induction fuel with
  | zero =>
    intro n ds h
    omega
  | succ fuel ih =>
    intro n ds h
    obtain ⟨hdig, hval⟩ := digitChar_isDigit (n % 10) (Nat.mod_lt _ (by norm_num))
    unfold Nat.toDigitsCore
    by_cases h0 : n / 10 = 0
    · refine ⟨[Nat.digitChar (n % 10)], by simp [h0], by simp, by simpa using hdig, ?_⟩
      have := digitsVal_append_singleton [] (Nat.digitChar (n % 10))
      simp only [List.nil_append] at this
      rw [this, hval]
      simp [digitsVal]
      omega
    · obtain ⟨L, hL, hne, hall, hv⟩ := ih (n / 10) (Nat.digitChar (n % 10) :: ds) (by omega)
      refine ⟨L ++ [Nat.digitChar (n % 10)], by simp [h0, hL], by simp, ?_, ?_⟩
      · intro c hc
        rcases List.mem_append.mp hc with hc | hc
        · exact hall c hc
        · simp only [List.mem_singleton] at hc
          rw [hc]
          exact hdig
      · rw [digitsVal_append_singleton, hv, hval]
        omega

theorem toDigits_spec (n : Nat) :
    Nat.toDigits 10 n ≠ [] ∧ (∀ c ∈ Nat.toDigits 10 n, c.isDigit = true)
      ∧ digitsVal (Nat.toDigits 10 n) = n := by
  obtain ⟨L, hL, hne, hall, hv⟩ := toDigitsCore_spec (n + 1) n [] (by omega)
  have e : Nat.toDigits 10 n = L := by
    unfold Nat.toDigits
    rw [hL]
    simp
  rw [e]
  exact ⟨hne, hall, hv⟩

theorem digitsVal_zeros (k : Nat) (L : List Char) :
    digitsVal (List.replicate k '0' ++ L) = digitsVal L := by
  induction k with
  | zero => simp
  | succ k ih =>
    unfold digitsVal at ih ⊢
    rw [List.replicate_succ, List.cons_append, List.foldl_cons]
    have : 0 * 10 + digitVal '0' = 0 := by decide
    rw [this]
    exact ih

/-- The text `putInt` writes for a non-negative value: a non-empty run of
digits whose value is the number, whatever the width padded with zeros. -/
theorem putInt_spec (w : Nat) (v : Int) (hv : 0 ≤ v) :
    putInt w '0' v ≠ [] ∧ (∀ c ∈ putInt w '0' v, c.isDigit = true)
      ∧ (digitsVal (putInt w '0' v) : Int) = v := by
  obtain ⟨hne, hall, hval⟩ := toDigits_spec v.toNat
  have e : intRepr v = Nat.toDigits 10 v.toNat := by
    unfold intRepr
    rw [if_neg (by omega)]
  unfold putInt
  simp only [e]
  refine ⟨?_, ?_, ?_⟩
  · intro h
    exact hne (List.append_eq_nil.mp h).2
  · intro c hc
    rcases List.mem_append.mp hc with hc | hc
    · rw [(List.mem_replicate.mp hc).2]
      decide
    · exact hall c hc
  · rw [digitsVal_zeros, hval]
    omega

theorem skipWs_of_isDigit (c : Char) (cs : List Char) (h : c.isDigit = true) :
    skipWs (c :: cs) = c :: cs := by
  have hs : isSpace c = false := by
    simp only [Char.isDigit, Bool.and_eq_true, decide_eq_true_eq] at h
    simp only [isSpace, Bool.or_eq_false_iff, beq_eq_false_iff_ne, ne_eq]
    refine ⟨⟨⟨⟨⟨?_, ?_⟩, ?_⟩, ?_⟩, ?_⟩, ?_⟩ <;>
      (intro hc; rw [hc] at h; exact absurd h (by decide))
  simp [skipWs, hs]

theorem readSign_of_isDigit (c : Char) (cs : List Char) (h : c.isDigit = true) :
    readSign (c :: cs) = (false, c :: cs) := by
  have h1 : c ≠ '-' := by
    intro hc
    rw [hc] at h
    exact absurd h (by decide)
  have h2 : c ≠ '+' := by
    intro hc
    rw [hc] at h
    exact absurd h (by decide)
  simp [readSign, h1, h2]

/-- Extraction of an `int` from a stream that starts with a run of digits
followed by something that is not a digit. -/
theorem extractInt_digits (L rest : List Char) (hne : L ≠ [])
    (hall : ∀ c ∈ L, c.isDigit = true)
    (hrest : rest.takeWhile Char.isDigit = [])
    (hmax : (digitsVal L : Int) ≤ INT_MAX) :
    extractInt (L ++ rest) = some ((digitsVal L : Int), rest) := by
  obtain ⟨c, cs, rfl⟩ := List.exists_cons_of_ne_nil hne
  have hc : c.isDigit = true := hall c (by simp)
  have htake : List.takeWhile Char.isDigit (c :: cs ++ rest) = c :: cs := by
    rw [List.takeWhile_append_of_pos (by simpa using hall), hrest, List.append_nil]
  have hdrop : List.dropWhile Char.isDigit (c :: cs ++ rest) = rest := by
    rw [List.dropWhile_append_of_pos (by simpa using hall)]
    cases rest with
    | nil => rfl
    | cons r rs =>
      simp only [List.takeWhile_cons] at hrest
      by_cases hr : r.isDigit = true
      · simp [hr] at hrest
      · simp [List.dropWhile_cons, hr]
  unfold extractInt
  rw [List.cons_append, skipWs_of_isDigit c _ hc, readSign_of_isDigit c _ hc]
  simp only [Bool.false_eq_true, if_false]
  rw [← List.cons_append, htake, hdrop]
  have hmin : ¬ ((digitsVal (c :: cs) : Int) < INT_MIN ∨ INT_MAX < (digitsVal (c :: cs) : Int)) := by
    unfold INT_MIN
    omega
  simp [hmin]

theorem extractChar_dot (rest : List Char) : extractChar ('.' :: rest) = some ('.', rest) := by
  have hs : isSpace '.' = false := by decide
  simp [extractChar, skipWs, hs]

theorem takeWhile_isDigit_dot (rest : List Char) :
    List.takeWhile Char.isDigit ('.' :: rest) = [] := by
  have h : Char.isDigit '.' = false := by decide
  simp [List.takeWhile_cons, h]

/-- C4: for every valid date `x` (with `int` fields), `fromString(toString(x))`
called on any object succeeds and leaves that object equal to `x` in day,
month and year. -/
theorem C4_toString_fromString (x z : Date) (hx : x.Valid) (hr : x.InIntRange) :
    z.fromString x.toString = (Except.ok (), x) := by
  obtain ⟨hy, hm, hm', hd, hd'⟩ := hx
  have hd31 := daysInMonth_le x.month x.year
  obtain ⟨dne, dall, dval⟩ := putInt_spec 2 x.day (by omega)
  obtain ⟨mne, mall, mval⟩ := putInt_spec 2 x.month (by omega)
  obtain ⟨yne, yall, yval⟩ := putInt_spec 0 x.year (by omega)
  have hymax : x.year ≤ INT_MAX := hr.2.2.2.2.2
  have e1 := extractInt_digits (putInt 2 '0' x.day)
    ('.' :: (putInt 2 '0' x.month ++ '.' :: putInt 0 '0' x.year)) dne dall
    (takeWhile_isDigit_dot _) (by rw [dval]; unfold INT_MAX; omega)
  have e2 := extractInt_digits (putInt 2 '0' x.month) ('.' :: putInt 0 '0' x.year) mne mall
    (takeWhile_isDigit_dot _) (by rw [mval]; unfold INT_MAX; omega)
  have e3 := extractInt_digits (putInt 0 '0' x.year) [] yne yall rfl (by rw [yval]; exact hymax)
  rw [dval] at e1
  rw [mval] at e2
  rw [yval, List.append_nil] at e3
  have hf : extractFields x.toString.data = some (x.day, '.', x.month, '.', x.year) := by
    unfold Date.toString extractFields
    simp only [List.append_assoc, List.cons_append]
    rw [e1]
    simp only [extractChar_dot]
    rw [e2]
    simp only [extractChar_dot]
    rw [e3]
  have hv : (Date.mk x.day x.month x.year).validate = Except.ok () :=
    validate_of_valid ⟨hy, hm, hm', hd, hd'⟩
  unfold Date.fromString
  rw [hf]
  simp [hv]

/-- C4 at 05.03.2024, parsed into an object holding 01.01.2000. -/
theorem C4_toString_fromString_witness :
    (Date.mk 5 3 2024).Valid ∧ (Date.mk 5 3 2024).InIntRange
    ∧ (Date.mk 1 1 2000).fromString (Date.mk 5 3 2024).toString = (Except.ok (), ⟨5, 3, 2024⟩) :=
  ⟨by decide, by decide, C4_toString_fromString ⟨5, 3, 2024⟩ ⟨1, 1, 2000⟩ (by decide) (by decide)⟩

/-! ## C19: `addDays` with a negative argument -/

/-- C19: there are a valid date and a negative `n` for which `addDays(n)` leaves
an invalid date with `day < 1`: on 01.01.2024, `addDays(-1)` leaves day 0 of
month 1 of 2024, while `subtractDays(1)` leaves 31.12.2023.  On a valid date a
negative argument never enters the roll-over loop, so month and year are kept
and nothing is borrowed from the previous month. -/
theorem C19_addDays_negative :
    (∃ (x : Date) (n : Int), x.Valid ∧ n < 0 ∧ (x.addDays n).day < 1
        ∧ ¬ (x.addDays n).Valid ∧ x.addDays n ≠ x.subtractDays (-n))
    ∧ (Date.mk 1 1 2024).addDays (-1) = ⟨0, 1, 2024⟩
    ∧ (Date.mk 1 1 2024).subtractDays 1 = ⟨31, 12, 2023⟩
    ∧ (∀ (x : Date) (n : Int), x.Valid → n < 0 →
        x.addDays n = ⟨x.day + n, x.month, x.year⟩) := by
  have gen : ∀ (x : Date) (n : Int), x.Valid → n < 0 →
      x.addDays n = ⟨x.day + n, x.month, x.year⟩ := by
    intro x n hx hn
    obtain ⟨_, _, _, _, hd⟩ := hx
    unfold Date.addDays
    exact addDaysLoop_of_le (by show x.day + n ≤ daysInMonth x.month x.year; omega)
  have e1 : (Date.mk 1 1 2024).addDays (-1) = ⟨0, 1, 2024⟩ :=
    gen ⟨1, 1, 2024⟩ (-1) (by decide) (by decide)
  have e2 : (Date.mk 1 1 2024).subtractDays 1 = ⟨31, 12, 2023⟩ := by
    unfold Date.subtractDays
    rw [subtractDaysLoop_of_lt (by simp)]
    rw [subtractDaysLoop_of_ge (by simp [subtractDaysStep, daysInMonth])]
    simp [subtractDaysStep, daysInMonth]
  refine ⟨⟨⟨1, 1, 2024⟩, -1, by decide, by decide, ?_, ?_, ?_⟩, e1, e2, gen⟩
  · rw [e1]
    decide
  · rw [e1]
    decide
  · rw [e1]
    show (Date.mk 0 1 2024) ≠ (Date.mk 1 1 2024).subtractDays 1
    rw [e2]
    decide

/-! ## C20: termination of the two loops -/

theorem addDaysStep_day (x : Date) :
    (addDaysStep x).day = x.day - daysInMonth x.month x.year := by
  simp only [addDaysStep]
  split_ifs <;> rfl

theorem subtractDaysStep_day (x : Date) :
    (subtractDaysStep x).day
      = x.day + daysInMonth (subtractDaysStep x).month (subtractDaysStep x).year := by
  simp only [subtractDaysStep]
  split_ifs <;> rfl

/-- Some number of iterations brings the loop of `addDays` to its exit, with
the result of `addDaysLoop`. -/
theorem addDaysFuel_terminates (x : Date) : ∃ k, addDaysFuel k x = some (addDaysLoop x) := by
  induction x using addDaysLoop.induct with
  | case1 x h ih =>
    obtain ⟨k, hk⟩ := ih
    refine ⟨k + 1, ?_⟩
    rw [addDaysLoop_of_gt h, addDaysFuel, if_pos h, hk]
  | case2 x h =>
    refine ⟨1, ?_⟩
    rw [addDaysLoop_of_le (not_lt.mp h), addDaysFuel, if_neg h]

/-- Some number of iterations brings the loop of `subtractDays` to its exit,
with the result of `subtractDaysLoop`. -/
theorem subtractDaysFuel_terminates (x : Date) :
    ∃ k, subtractDaysFuel k x = some (subtractDaysLoop x) := by
  induction x using subtractDaysLoop.induct with
  | case1 x h ih =>
    obtain ⟨k, hk⟩ := ih
    refine ⟨k + 1, ?_⟩
    rw [subtractDaysLoop_of_lt h, subtractDaysFuel, if_pos h, hk]
  | case2 x h =>
    refine ⟨1, ?_⟩
    rw [subtractDaysLoop_of_ge (not_lt.mp h), subtractDaysFuel, if_neg h]

/-- C20: for every date with month in 1..12 and every integer `n`, the loops of
`addDays(n)` and `subtractDays(n)` reach their exit after finitely many
iterations, giving the result of the total functions `addDays` and
`subtractDays`; each iteration of `addDays` lowers `day` by `daysInMonth`,
each iteration of `subtractDays` raises it by `daysInMonth`, and
`daysInMonth` is at least 28. -/
theorem C20_loops_terminate (x : Date) (n : Int) (hm : 1 ≤ x.month ∧ x.month ≤ 12) :
    (∃ k, addDaysFuel k { x with day := x.day + n } = some (x.addDays n))
    ∧ (∃ k, subtractDaysFuel k { x with day := x.day - n } = some (x.subtractDays n))
    ∧ (∀ s : Date, (addDaysStep s).day = s.day - daysInMonth s.month s.year
        ∧ 28 ≤ daysInMonth s.month s.year)
    ∧ (∀ s : Date, (subtractDaysStep s).day
          = s.day + daysInMonth (subtractDaysStep s).month (subtractDaysStep s).year
        ∧ 28 ≤ daysInMonth (subtractDaysStep s).month (subtractDaysStep s).year) := by
  have _ := hm
  exact ⟨addDaysFuel_terminates _, subtractDaysFuel_terminates _,
    fun s => ⟨addDaysStep_day s, daysInMonth_ge _ _⟩,
    fun s => ⟨subtractDaysStep_day s, daysInMonth_ge _ _⟩⟩

/-- C20 at 31.12.2023 with 400 days: two concrete iteration budgets exist. -/
theorem C20_loops_terminate_witness :
    ((1 : Int) ≤ 12 ∧ (12 : Int) ≤ 12)
    ∧ (∃ k, addDaysFuel k ⟨31 + 400, 12, 2023⟩ = some ((Date.mk 31 12 2023).addDays 400))
    ∧ (∃ k, subtractDaysFuel k ⟨31 - 400, 12, 2023⟩
        = some ((Date.mk 31 12 2023).subtractDays 400)) :=
  ⟨by decide, (C20_loops_terminate ⟨31, 12, 2023⟩ 400 (by decide)).1,
    (C20_loops_terminate ⟨31, 12, 2023⟩ 400 (by decide)).2.1⟩

/-! ## C11: the object counters -/

theorem construct_ok_counters {d m y : Int} (c : Counters) (h : (Date.mk d m y).Valid) :
    Date.construct d m y c = Except.ok (⟨d, m, y⟩, ⟨c.existingCount + 1, c.totalCreated + 1⟩) := by
  simp [Date.construct, validate_of_valid h]

theorem construct_error {d m y : Int} (c : Counters) (h : ¬ (Date.mk d m y).Valid) :
    Date.construct d m y c = Except.error DateError.invalidDate := by
  simp [Date.construct, validate_of_not_valid h]

/-- The effect of one event on the counters, in terms of whether it constructs
or destroys. -/
theorem CounterOp.apply_eq (c : Counters) (op : CounterOp) :
    CounterOp.apply c op
      = ⟨c.existingCount + (if op.constructs then 1 else 0) - (if op.destroys then 1 else 0),
         c.totalCreated + (if op.constructs then 1 else 0)⟩ := by
  cases op with
  | construct d m y =>
    by_cases h : (Date.mk d m y).Valid
    · simp [CounterOp.apply, CounterOp.constructs, CounterOp.destroys,
        construct_ok_counters c h, validate_of_valid h]
    · simp [CounterOp.apply, CounterOp.constructs, CounterOp.destroys,
        construct_error c h, validate_of_not_valid h]
  | constructDefault =>
    have h : (Date.mk 1 1 2000).Valid := by decide
    simp [CounterOp.apply, CounterOp.constructs, CounterOp.destroys,
      construct_ok_counters c h, validate_of_valid h]
  | copy other =>
    simp [CounterOp.apply, CounterOp.constructs, CounterOp.destroys, Date.copy]
  | destroy =>
    simp [CounterOp.apply, CounterOp.constructs, CounterOp.destroys, Date.destruct]

theorem runOps_eq (ops : List CounterOp) : ∀ c : Counters,
    runOps ops c = ⟨c.existingCount + successfulConstructions ops - destructions ops,
      c.totalCreated + successfulConstructions ops⟩ := by
  induction ops with
  | nil =>
    intro c
    simp [runOps, successfulConstructions, destructions]
  | cons op ops ih =>
    intro c
    have h := ih (CounterOp.apply c op)
    unfold runOps at h ⊢
    rw [List.foldl_cons, h, CounterOp.apply_eq]
    unfold successfulConstructions destructions
    simp only [List.filter_cons]
    cases hc : op.constructs <;> cases hd : op.destroys <;>
      simp <;> omega

/-- C11: starting from `existingCount = 0` and `totalCreated = 0`, after any
sequence of events with N successful constructions (default, with arguments, or
copy) and M destructions, `existingCount` is N - M and `totalCreated` is N; a
constructor call that throws changes neither counter, and no event lowers
`totalCreated`. -/
theorem C11_counters (ops : List CounterOp) :
    (runOps ops ⟨0, 0⟩).existingCount
        = (successfulConstructions ops : Int) - (destructions ops : Int)
    ∧ (runOps ops ⟨0, 0⟩).totalCreated = (successfulConstructions ops : Int)
    ∧ (∀ (c : Counters) (d m y : Int),
        (∀ r, Date.construct d m y c ≠ Except.ok r) →
          CounterOp.apply c (CounterOp.construct d m y) = c)
    ∧ (∀ (c : Counters) (op : CounterOp), c.totalCreated ≤ (CounterOp.apply c op).totalCreated)
    ∧ (∀ (c : Counters) (more : List CounterOp),
        (runOps ops c).totalCreated ≤ (runOps (ops ++ more) c).totalCreated) := by
  refine ⟨?_, ?_, ?_, ?_, ?_⟩
  · rw [runOps_eq]
    simp
  · rw [runOps_eq]
    simp
  · intro c d m y h
    by_cases hv : (Date.mk d m y).Valid
    · exact absurd (construct_ok_counters c hv) (h _)
    · simp [CounterOp.apply, construct_error c hv]
  · intro c op
    rw [CounterOp.apply_eq]
    show c.totalCreated ≤ c.totalCreated + (if op.constructs then 1 else 0)
    split_ifs <;> omega
  · intro c more
    have e : runOps (ops ++ more) c = runOps more (runOps ops c) := by
      simp [runOps, List.foldl_append]
    rw [e, runOps_eq more]
    show (runOps ops c).totalCreated
      ≤ (runOps ops c).totalCreated + (successfulConstructions more : Int)
    omega

/-! ## The absolute day count -/

theorem forSum_acc (f : Int → Int) (n : Nat) : ∀ (i acc : Int),
    forSum f n i acc = acc + forSum f n i 0 := by
  induction n with
  | zero =>
    intro i acc
    simp [forSum]
  | succ n ih =>
    intro i acc
    rw [forSum, forSum, ih (i + 1) (acc + f i), ih (i + 1) (0 + f i)]
    omega

theorem forSum_succ (f : Int → Int) (n : Nat) : ∀ (i acc : Int),
    forSum f (n + 1) i acc = forSum f n i acc + f (i + n) := by
  induction n with
  | zero =>
    intro i acc
    simp [forSum]
  | succ n ih =>
    intro i acc
    rw [forSum, ih (i + 1) (acc + f i), forSum]
    have e : i + 1 + (n : Int) = i + ((n + 1 : Nat) : Int) := by
      push_cast
      omega
    rw [e]

theorem countDays_eq (d m y : Int) :
    countDays d m y = d + daysBeforeMonth m y + daysBeforeYear y := by
  unfold countDays daysBeforeMonth daysBeforeYear
  simp only []
  rw [forSum_acc _ _ 1 (forSum _ _ 1 d), forSum_acc _ _ 1 d]

theorem daysBeforeMonth_one (y : Int) : daysBeforeMonth 1 y = 0 := by
  simp [daysBeforeMonth, forSum]

theorem daysBeforeMonth_succ (m y : Int) (hm : 1 ≤ m) :
    daysBeforeMonth (m + 1) y = daysBeforeMonth m y + daysInMonth m y := by
  unfold daysBeforeMonth
  have e : (m + 1 - 1).toNat = (m - 1).toNat + 1 := by omega
  rw [e, forSum_succ]
  have e' : (1 : Int) + ((m - 1).toNat : Int) = m := by omega
  rw [e']

/-- The twelve months of a year add up to the length of the year. -/
theorem daysBeforeMonth_thirteen (y : Int) :
    daysBeforeMonth 13 y = if isLeapYear y then 366 else 365 := by
  have e1 := daysBeforeMonth_one y
  have e2 : daysBeforeMonth 2 y = _ := daysBeforeMonth_succ 1 y (by norm_num)
  have e3 : daysBeforeMonth 3 y = _ := daysBeforeMonth_succ 2 y (by norm_num)
  have e4 : daysBeforeMonth 4 y = _ := daysBeforeMonth_succ 3 y (by norm_num)
  have e5 : daysBeforeMonth 5 y = _ := daysBeforeMonth_succ 4 y (by norm_num)
  have e6 : daysBeforeMonth 6 y = _ := daysBeforeMonth_succ 5 y (by norm_num)
  have e7 : daysBeforeMonth 7 y = _ := daysBeforeMonth_succ 6 y (by norm_num)
  have e8 : daysBeforeMonth 8 y = _ := daysBeforeMonth_succ 7 y (by norm_num)
  have e9 : daysBeforeMonth 9 y = _ := daysBeforeMonth_succ 8 y (by norm_num)
  have e10 : daysBeforeMonth 10 y = _ := daysBeforeMonth_succ 9 y (by norm_num)
  have e11 : daysBeforeMonth 11 y = _ := daysBeforeMonth_succ 10 y (by norm_num)
  have e12 : daysBeforeMonth 12 y = _ := daysBeforeMonth_succ 11 y (by norm_num)
  have e13 : daysBeforeMonth 13 y = _ := daysBeforeMonth_succ 12 y (by norm_num)
  simp only [daysInMonth] at e2 e3 e4 e5 e6 e7 e8 e9 e10 e11 e12 e13
  norm_num at e2 e3 e4 e5 e6 e7 e8 e9 e10 e11 e12 e13
  split_ifs at e3 ⊢ <;> omega

theorem daysBeforeMonth_add (y : Int) (k : Nat) : ∀ m : Int, 1 ≤ m →
    daysBeforeMonth m y + 28 * k ≤ daysBeforeMonth (m + k) y := by
  induction k with
  | zero =>
    intro m _
    simp
  | succ k ih =>
    intro m hm
    have h1 := ih m hm
    have h2 := daysBeforeMonth_succ (m + k) y (by omega)
    have h3 := daysInMonth_ge (m + k) y
    have e : m + ((k + 1 : Nat) : Int) = m + k + 1 := by
      push_cast
      omega
    rw [e, h2]
    push_cast
    omega

theorem daysBeforeMonth_mono (y m m' : Int) (hm : 1 ≤ m) (hmm : m ≤ m') :
    daysBeforeMonth m y ≤ daysBeforeMonth m' y := by
  have h := daysBeforeMonth_add y (m' - m).toNat m hm
  have e : m + ((m' - m).toNat : Int) = m' := by omega
  rw [e] at h
  omega

theorem daysBeforeMonth_nonneg (y m : Int) (hm : 1 ≤ m) : 0 ≤ daysBeforeMonth m y := by
  have h := daysBeforeMonth_mono y 1 m (le_refl _) hm
  rw [daysBeforeMonth_one] at h
  exact h

theorem daysBeforeYear_one : daysBeforeYear 1 = 0 := by
  simp [daysBeforeYear, forSum]

theorem daysBeforeYear_succ (y : Int) (hy : 1 ≤ y) :
    daysBeforeYear (y + 1) = daysBeforeYear y + (if isLeapYear y then 366 else 365) := by
  unfold daysBeforeYear
  have e : (y + 1 - 1).toNat = (y - 1).toNat + 1 := by omega
  rw [e, forSum_succ]
  have e' : (1 : Int) + ((y - 1).toNat : Int) = y := by omega
  rw [e']

theorem daysBeforeYear_add (k : Nat) : ∀ y : Int, 1 ≤ y →
    daysBeforeYear y + 365 * k ≤ daysBeforeYear (y + k) := by
  induction k with
  | zero =>
    intro y _
    simp
  | succ k ih =>
    intro y hy
    have h1 := ih y hy
    have h2 := daysBeforeYear_succ (y + k) (by omega)
    have e : y + ((k + 1 : Nat) : Int) = y + k + 1 := by
      push_cast
      omega
    rw [e, h2]
    push_cast
    split_ifs <;> omega

theorem daysBeforeYear_mono (y y' : Int) (hy : 1 ≤ y) (hyy : y ≤ y') :
    daysBeforeYear y ≤ daysBeforeYear y' := by
  have h := daysBeforeYear_add (y' - y).toNat y hy
  have e : y + ((y' - y).toNat : Int) = y' := by omega
  rw [e] at h
  omega

/-- A valid date lies within its year: the day count inside the year is at
least 1 and at most the length of the year. -/
theorem dayOfYear_bounds (x : Date) (hx : x.Valid) :
    1 ≤ x.day + daysBeforeMonth x.month x.year
    ∧ x.day + daysBeforeMonth x.month x.year ≤ daysBeforeMonth (x.month + 1) x.year
    ∧ daysBeforeMonth (x.month + 1) x.year ≤ (if isLeapYear x.year then 366 else 365) := by
  obtain ⟨_, hm, hm', hd, hd'⟩ := hx
  have h0 := daysBeforeMonth_nonneg x.year x.month hm
  have h1 := daysBeforeMonth_succ x.month x.year hm
  have h2 := daysBeforeMonth_mono x.year (x.month + 1) 13 (by omega) (by omega)
  rw [daysBeforeMonth_thirteen] at h2
  exact ⟨by omega, by omega, h2⟩

/-- The day count is strictly increasing along the lexicographic order of
valid dates. -/
theorem countDays_lt_of_lex (a b : Date) (ha : a.Valid) (hb : b.Valid)
    (h : a.year < b.year ∨ (a.year = b.year ∧
      (a.month < b.month ∨ (a.month = b.month ∧ a.day < b.day)))) :
    countDays a.day a.month a.year < countDays b.day b.month b.year := by
  rw [countDays_eq, countDays_eq]
  obtain ⟨a1, a2, a3⟩ := dayOfYear_bounds a ha
  obtain ⟨b1, _, _⟩ := dayOfYear_bounds b hb
  rcases h with h | ⟨hy, h | ⟨hm, hd⟩⟩
  · have h1 := daysBeforeYear_succ a.year ha.1
    have h2 := daysBeforeYear_mono (a.year + 1) b.year (by have := ha.1; omega) (by omega)
    omega
  · have h1 := daysBeforeMonth_mono b.year (a.month + 1) b.month (by have := ha.2.1; omega)
      (by omega)
    have hbd := hb.2.2.2.1
    rw [hy] at a2 ⊢
    omega
  · rw [hy, hm]
    omega

/-! ## C12: `addDays` moves the day count by `n` -/

/-- One iteration of the loop of `addDays` keeps the absolute day count. -/
theorem countDays_addDaysStep (x : Date) (hy : 1 ≤ x.year) (hm : 1 ≤ x.month)
    (hm' : x.month ≤ 12) :
    countDays (addDaysStep x).day (addDaysStep x).month (addDaysStep x).year
      = countDays x.day x.month x.year := by
  have hs := daysBeforeMonth_succ x.month x.year hm
  simp only [addDaysStep]
  by_cases h12 : x.month + 1 > 12
  · have e : x.month + 1 = 13 := by omega
    rw [e, daysBeforeMonth_thirteen] at hs
    simp only [h12, if_true, countDays_eq, daysBeforeMonth_one,
      daysBeforeYear_succ x.year hy]
    omega
  · simp only [h12, if_false, countDays_eq]
    omega

/-- The range invariant of the loop of `addDays`: year at least 1 and month in
1..12 are kept by one iteration. -/
theorem addDaysStep_range (x : Date) (hy : 1 ≤ x.year) (hm : 1 ≤ x.month)
    (hm' : x.month ≤ 12) :
    1 ≤ (addDaysStep x).year ∧ 1 ≤ (addDaysStep x).month ∧ (addDaysStep x).month ≤ 12 := by
  simp only [addDaysStep]
  split_ifs <;> refine ⟨?_, ?_, ?_⟩ <;> simp only [] <;> omega

theorem countDays_addDaysLoop (x : Date) (hy : 1 ≤ x.year) (hm : 1 ≤ x.month)
    (hm' : x.month ≤ 12) :
    countDays (addDaysLoop x).day (addDaysLoop x).month (addDaysLoop x).year
      = countDays x.day x.month x.year := by
  induction x using addDaysLoop.induct with
  | case1 x h ih =>
    obtain ⟨r1, r2, r3⟩ := addDaysStep_range x hy hm hm'
    rw [addDaysLoop_of_gt h, ih r1 r2 r3, countDays_addDaysStep x hy hm hm']
  | case2 x h =>
    rw [addDaysLoop_of_le (not_lt.mp h)]

theorem countDays_addDays (x : Date) (n : Int) (hx : x.Valid) :
    countDays (x.addDays n).day (x.addDays n).month (x.addDays n).year
      = countDays x.day x.month x.year + n := by
  obtain ⟨hy, hm, hm', _, _⟩ := hx
  unfold Date.addDays
  rw [countDays_addDaysLoop ⟨x.day + n, x.month, x.year⟩ hy hm hm', countDays_eq, countDays_eq]
  simp only []
  omega

/-- C12: for a valid date `x` and `n >= 0`, the difference computed by
`operator-` between the date left by `x.addDays(n)` and `x` is `n`. -/
theorem C12_addDays_difference (x : Date) (n : Int) (hx : x.Valid) (hn : 0 ≤ n) :
    (x.addDays n).opSub x = n := by
  have _ := hn
  unfold Date.opSub
  rw [countDays_addDays x n hx]
  omega

/-- C12 at 31.12.2023 with 400 days. -/
theorem C12_addDays_difference_witness :
    (Date.mk 31 12 2023).Valid ∧ (0 : Int) ≤ 400
    ∧ ((Date.mk 31 12 2023).addDays 400).opSub ⟨31, 12, 2023⟩ = 400 :=
  ⟨by decide, by decide, C12_addDays_difference ⟨31, 12, 2023⟩ 400 (by decide) (by decide)⟩

/-! ## Order and sign of the exact difference -/

/-- For valid dates the order agrees with the sign of the exact day difference:
`a < b` exactly when the exact `a - b` is negative, and `a == b` exactly when
it is zero. -/
theorem opLt_iff_exact_difference_neg (a b : Date) (ha : a.Valid) (hb : b.Valid) :
    (a.opLt b = true ↔ a.opSub b < 0) ∧ (a.opEq b = true ↔ a.opSub b = 0) := by
  have hLt : ∀ p q : Date, p.opLt q = true ↔ (p.year < q.year ∨ (p.year = q.year ∧
      (p.month < q.month ∨ (p.month = q.month ∧ p.day < q.day)))) := by
    intro p q
    unfold Date.opLt
    split_ifs with h1 h2 <;> simp only [decide_eq_true_eq] <;> omega
  have hEq : a.opEq b = true ↔ (a.day = b.day ∧ a.month = b.month ∧ a.year = b.year) := by
    simp [Date.opEq, and_assoc]
  have fwd := countDays_lt_of_lex a b ha hb
  have bwd := countDays_lt_of_lex b a hb ha
  unfold Date.opSub
  constructor
  · rw [hLt]
    constructor
    · intro h
      have := fwd h
      omega
    · intro h
      by_contra hn
      by_cases hba : (b.year < a.year ∨ (b.year = a.year ∧
          (b.month < a.month ∨ (b.month = a.month ∧ b.day < a.day))))
      · have := bwd hba
        omega
      · have e1 : a.year = b.year := by omega
        have e2 : a.month = b.month := by omega
        have e3 : a.day = b.day := by omega
        rw [e1, e2, e3] at h
        omega
  · rw [hEq]
    constructor
    · rintro ⟨e3, e2, e1⟩
      rw [e1, e2, e3]
      omega
    · intro h
      by_contra hn
      by_cases hab : (a.year < b.year ∨ (a.year = b.year ∧
          (a.month < b.month ∨ (a.month = b.month ∧ a.day < b.day))))
      · have := fwd hab
        omega
      · by_cases hba : (b.year < a.year ∨ (b.year = a.year ∧
            (b.month < a.month ∨ (b.month = a.month ∧ b.day < a.day))))
        · have := bwd hba
          omega
        · apply hn
          omega

/-! ## C14: `addDays` followed by `subtractDays` -/

/-- Two valid dates with the same absolute day count are the same date. -/
theorem countDays_injective (a b : Date) (ha : a.Valid) (hb : b.Valid)
    (h : countDays a.day a.month a.year = countDays b.day b.month b.year) : a = b := by
  have fwd := countDays_lt_of_lex a b ha hb
  have bwd := countDays_lt_of_lex b a hb ha
  by_cases hab : (a.year < b.year ∨ (a.year = b.year ∧
      (a.month < b.month ∨ (a.month = b.month ∧ a.day < b.day))))
  · have := fwd hab
    omega
  · by_cases hba : (b.year < a.year ∨ (b.year = a.year ∧
        (b.month < a.month ∨ (b.month = a.month ∧ b.day < a.day))))
    · have := bwd hba
      omega
    · have e1 : a.year = b.year := by omega
      have e2 : a.month = b.month := by omega
      have e3 : a.day = b.day := by omega
      cases a
      cases b
      simp only [Date.mk.injEq] at *
      exact ⟨e3, e2, e1⟩

/-- One iteration of the loop of `subtractDays` keeps the absolute day count,
as long as it does not step back from January of year 1. -/
theorem countDays_subtractDaysStep (x : Date) (hm : 1 ≤ x.month) (hm' : x.month ≤ 12)
    (h1 : x.month = 1 → 2 ≤ x.year) :
    countDays (subtractDaysStep x).day (subtractDaysStep x).month (subtractDaysStep x).year
      = countDays x.day x.month x.year := by
  simp only [subtractDaysStep]
  by_cases hlt : x.month - 1 < 1
  · have e : x.month = 1 := by omega
    have hy2 := h1 e
    have hs := daysBeforeMonth_succ 12 (x.year - 1) (by norm_num)
    have e13 : (12 : Int) + 1 = 13 := by norm_num
    rw [e13, daysBeforeMonth_thirteen] at hs
    have hys := daysBeforeYear_succ (x.year - 1) (by omega)
    have e' : x.year - 1 + 1 = x.year := by omega
    rw [e'] at hys
    simp only [hlt, if_true]
    simp only [countDays_eq, e, daysBeforeMonth_one]
    omega
  · have hs := daysBeforeMonth_succ (x.month - 1) x.year (by omega)
    have e' : x.month - 1 + 1 = x.month := by omega
    rw [e'] at hs
    simp only [hlt, if_false, countDays_eq]
    omega

/-- The loop of `subtractDays`, started in range on a state whose absolute day
count is at least 1, ends on a valid date with the same day count. -/
theorem subtractDaysLoop_spec (x : Date) (hy : 1 ≤ x.year) (hm : 1 ≤ x.month)
    (hm' : x.month ≤ 12) (hd : x.day ≤ daysInMonth x.month x.year)
    (hc : 1 ≤ countDays x.day x.month x.year) :
    (subtractDaysLoop x).Valid
    ∧ countDays (subtractDaysLoop x).day (subtractDaysLoop x).month (subtractDaysLoop x).year
        = countDays x.day x.month x.year := by
  induction x using subtractDaysLoop.induct with
  | case1 x h ih =>
    have hy2 : x.month = 1 → 2 ≤ x.year := by
      intro e
      by_contra hn
      have ey : x.year = 1 := by omega
      rw [countDays_eq, e, ey, daysBeforeMonth_one, daysBeforeYear_one] at hc
      omega
    have hstep := countDays_subtractDaysStep x hm hm' hy2
    have hge := daysInMonth_ge
    rw [subtractDaysLoop_of_lt h]
    rw [← hstep] at hc ⊢
    have hr : 1 ≤ (subtractDaysStep x).year ∧ 1 ≤ (subtractDaysStep x).month
        ∧ (subtractDaysStep x).month ≤ 12
        ∧ (subtractDaysStep x).day
            ≤ daysInMonth (subtractDaysStep x).month (subtractDaysStep x).year := by
      have hday := subtractDaysStep_day x
      refine ⟨?_, ?_, ?_, by omega⟩
      · simp only [subtractDaysStep]
        split_ifs <;> simp only [] <;> omega
      · simp only [subtractDaysStep]
        split_ifs <;> simp only [] <;> omega
      · simp only [subtractDaysStep]
        split_ifs <;> simp only [] <;> omega
    exact ih hr.1 hr.2.1 hr.2.2.1 hr.2.2.2 hc
  | case2 x h =>
    rw [subtractDaysLoop_of_ge (not_lt.mp h)]
    exact ⟨⟨hy, hm, hm', not_lt.mp h, hd⟩, rfl⟩

/-- C14: for a valid date `x` and `n >= 0`, `addDays(n)` followed by
`subtractDays(n)` leaves a date equal to `x` in day, month and year. -/
theorem C14_add_then_subtract (x : Date) (n : Int) (hx : x.Valid) (hn : 0 ≤ n) :
    (x.addDays n).subtractDays n = x := by
  have hv : (x.addDays n).Valid := by
    unfold Date.addDays
    exact addDaysLoop_valid _ hx.1 hx.2.1 hx.2.2.1 (by show 1 ≤ x.day + n; have := hx.2.2.2.1; omega)
  have hc := countDays_addDays x n hx
  have hpos : 1 ≤ countDays x.day x.month x.year := by
    obtain ⟨b1, _, _⟩ := dayOfYear_bounds x hx
    have := daysBeforeYear_mono 1 x.year (le_refl _) hx.1
    rw [daysBeforeYear_one] at this
    rw [countDays_eq]
    omega
  obtain ⟨vy, vm, vm', vd, vd'⟩ := hv
  have hshift : countDays ((x.addDays n).day - n) (x.addDays n).month (x.addDays n).year
      = countDays x.day x.month x.year := by
    rw [countDays_eq] at hc ⊢
    omega
  have hspec := subtractDaysLoop_spec
    ⟨(x.addDays n).day - n, (x.addDays n).month, (x.addDays n).year⟩ vy vm vm'
    (by
      show (x.addDays n).day - n ≤ daysInMonth (x.addDays n).month (x.addDays n).year
      omega)
    (by show 1 ≤ countDays ((x.addDays n).day - n) _ _; rw [hshift]; exact hpos)
  have e : (x.addDays n).subtractDays n
      = subtractDaysLoop ⟨(x.addDays n).day - n, (x.addDays n).month, (x.addDays n).year⟩ := rfl
  rw [e]
  apply countDays_injective _ _ hspec.1 hx
  rw [hspec.2]
  exact hshift

/-- C14 at 31.12.2023 with 400 days. -/
theorem C14_add_then_subtract_witness :
    (Date.mk 31 12 2023).Valid ∧ (0 : Int) ≤ 400
    ∧ ((Date.mk 31 12 2023).addDays 400).subtractDays 400 = ⟨31, 12, 2023⟩ :=
  ⟨by decide, by decide, C14_add_then_subtract ⟨31, 12, 2023⟩ 400 (by decide) (by decide)⟩

/-! ## C16: the closed form of the year loop -/

/-- The length of year `y >= 1` written with the three floor quotients. -/
theorem yearLength_eq (y : Int) (hy : 1 ≤ y) :
    (if isLeapYear y then (366 : Int) else 365)
      = 365 + (y / 4 - (y - 1) / 4) - (y / 100 - (y - 1) / 100) + (y / 400 - (y - 1) / 400) := by
  have h0 : (0 : Int) ≤ y := by omega
  have hl := isLeapYear_eq_true_iff y
  rw [Int.tmod_eq_emod h0 (by norm_num), Int.tmod_eq_emod h0 (by norm_num),
    Int.tmod_eq_emod h0 (by norm_num)] at hl
  by_cases h : isLeapYear y = true
  · rw [if_pos h]
    have := hl.mp h
    omega
  · rw [if_neg h]
    have : ¬ ((y % 4 = 0 ∧ y % 100 ≠ 0) ∨ y % 400 = 0) := fun hh => h (hl.mpr hh)
    omega

/-- The loop over the years gives the Gregorian closed form. -/
theorem daysBeforeYear_closed (k : Nat) :
    daysBeforeYear (1 + (k : Int))
      = 365 * (k : Int) + (k : Int) / 4 - (k : Int) / 100 + (k : Int) / 400 := by
  induction k with
  | zero =>
    have e : (1 : Int) + ((0 : Nat) : Int) = 1 := by norm_num
    rw [e, daysBeforeYear_one]
    norm_num
  | succ k ih =>
    have hs := daysBeforeYear_succ (1 + (k : Int)) (by omega)
    have hl := yearLength_eq (1 + (k : Int)) (by omega)
    have e : (1 : Int) + ((k + 1 : Nat) : Int) = 1 + (k : Int) + 1 := by
      push_cast
      omega
    rw [e, hs, hl, ih]
    push_cast
    have e2 : (1 : Int) + (k : Int) - 1 = k := by omega
    rw [e2]
    omega

/-- The sum over the months before `m`, as the loop of `countDays` forms it. -/
theorem sum_Ico_daysInMonth (y : Int) (k : Nat) :
    (∑ i in Finset.Ico 1 (1 + (k : Int)), daysInMonth i y) = daysBeforeMonth (1 + (k : Int)) y := by
  induction k with
  | zero =>
    have e : (1 : Int) + ((0 : Nat) : Int) = 1 := by norm_num
    rw [e, daysBeforeMonth_one]
    simp
  | succ k ih =>
    have e : (1 : Int) + ((k + 1 : Nat) : Int) = 1 + (k : Int) + 1 := by
      push_cast
      omega
    have hI : Finset.Ico (1 : Int) (1 + (k : Int) + 1)
        = insert (1 + (k : Int)) (Finset.Ico 1 (1 + (k : Int))) := by
      ext i
      simp only [Finset.mem_Ico, Finset.mem_insert]
      omega
    rw [e, hI, Finset.sum_insert (by simp), ih, daysBeforeMonth_succ _ _ (by omega)]
    omega

/-- C16: for valid dates the loop-based day count of `operator-` equals the
closed form `d + sum_{i<m} daysInMonth(i, y) + 365*(y-1) + floor((y-1)/4)
- floor((y-1)/100) + floor((y-1)/400)`, so the differences computed with the
closed form are those of `operator-`. -/
theorem C16_countDays_closed (a b : Date) (ha : a.Valid) (hb : b.Valid) :
    countDays a.day a.month a.year = countDaysClosed a.day a.month a.year
    ∧ a.opSub b = countDaysClosed a.day a.month a.year - countDaysClosed b.day b.month b.year := by
  have key : ∀ x : Date, x.Valid →
      countDays x.day x.month x.year = countDaysClosed x.day x.month x.year := by
    intro x hx
    obtain ⟨hy, hm, _, _, _⟩ := hx
    have hY := daysBeforeYear_closed (x.year - 1).toNat
    have hM := sum_Ico_daysInMonth x.year (x.month - 1).toNat
    have ey : (1 : Int) + ((x.year - 1).toNat : Int) = x.year := by omega
    have em : (1 : Int) + ((x.month - 1).toNat : Int) = x.month := by omega
    have ey' : ((x.year - 1).toNat : Int) = x.year - 1 := by omega
    rw [ey, ey'] at hY
    rw [em] at hM
    rw [countDays_eq, countDaysClosed, hM, hY]
    omega
  refine ⟨key a ha, ?_⟩
  unfold Date.opSub
  rw [key a ha, key b hb]

/-- C16 at 01.03.2024 and 01.01.2023. -/
theorem C16_countDays_closed_witness :
    (Date.mk 1 3 2024).Valid ∧ (Date.mk 1 1 2023).Valid
    ∧ countDays 1 3 2024 = countDaysClosed 1 3 2024 :=
  ⟨by decide, by decide, (C16_countDays_closed ⟨1, 3, 2024⟩ ⟨1, 1, 2023⟩ (by decide) (by decide)).1⟩

/-! ## C17: week number -/

/-- C17: for a valid date `x`, `weekNumber()` returns `floor(k / 7) + 1` where
`k = x - (1, 1, x.year)` counts the days since January 1 of the same year;
`k` lies in 0..365, the week number is 1 exactly for January 1..7, and it
always lies in 1..53.  The local object for January 1 is created and destroyed,
so `existingCount` is as before and `totalCreated` is one higher. -/
theorem C17_weekNumber (x : Date) (c : Counters) (hx : x.Valid) :
    x.weekNumber c
      = Except.ok ((x.opSub ⟨1, 1, x.year⟩) / 7 + 1, ⟨c.existingCount, c.totalCreated + 1⟩)
    ∧ 0 ≤ x.opSub ⟨1, 1, x.year⟩ ∧ x.opSub ⟨1, 1, x.year⟩ ≤ 365
    ∧ ((x.opSub ⟨1, 1, x.year⟩) / 7 + 1 = 1 ↔ (x.month = 1 ∧ x.day ≤ 7))
    ∧ 1 ≤ (x.opSub ⟨1, 1, x.year⟩) / 7 + 1 ∧ (x.opSub ⟨1, 1, x.year⟩) / 7 + 1 ≤ 53 := by
  obtain ⟨b1, b2, b3⟩ := dayOfYear_bounds x hx
  obtain ⟨hy, hm, hm', hd, hd'⟩ := hx
  have hk : x.opSub ⟨1, 1, x.year⟩ = x.day + daysBeforeMonth x.month x.year - 1 := by
    unfold Date.opSub
    simp only [countDays_eq, daysBeforeMonth_one]
    omega
  have hs := daysBeforeMonth_succ x.month x.year hm
  have hge := daysInMonth_ge x.month x.year
  have hle : daysBeforeMonth (x.month + 1) x.year ≤ 366 := by
    split_ifs at b3 <;> omega
  have h0 : 0 ≤ x.opSub ⟨1, 1, x.year⟩ := by omega
  have hjan : (Date.mk 1 1 x.year).Valid := by
    have := daysInMonth_ge 1 x.year
    refine ⟨hy, ?_, ?_, ?_, ?_⟩ <;> simp only [] <;> omega
  refine ⟨?_, h0, by omega, ?_, by omega, by omega⟩
  · unfold Date.weekNumber
    rw [construct_ok_counters c hjan]
    simp only [Date.destruct]
    rw [Int.tdiv_eq_ediv h0 (by norm_num)]
    simp
  · constructor
    · intro h
      have hk7 : x.opSub ⟨1, 1, x.year⟩ < 7 := by omega
      by_cases h1 : x.month = 1
      · rw [h1, daysBeforeMonth_one] at hk
        exact ⟨h1, by omega⟩
      · exfalso
        have hmono := daysBeforeMonth_mono x.year 2 x.month (by norm_num) (by omega)
        have e2 : daysBeforeMonth 2 x.year = _ := daysBeforeMonth_succ 1 x.year (by norm_num)
        have hg1 := daysInMonth_ge 1 x.year
        rw [daysBeforeMonth_one] at e2
        omega
    · rintro ⟨h1, h7⟩
      rw [h1, daysBeforeMonth_one] at hk
      omega

/-- C17 at 08.01.2024: the second week. -/
theorem C17_weekNumber_witness :
    (Date.mk 8 1 2024).Valid
    ∧ (Date.mk 8 1 2024).weekNumber ⟨0, 0⟩
        = Except.ok (((Date.mk 8 1 2024).opSub ⟨1, 1, 2024⟩) / 7 + 1, ⟨0, 0 + 1⟩) :=
  ⟨by decide, (C17_weekNumber ⟨8, 1, 2024⟩ ⟨0, 0⟩ (by decide)).1⟩

/-! ## The day of the week of the next day, computed exactly -/

/-- On a date with positive fields the truncating divisions of `dayOfWeek` act
on non-negative numbers, so the function is the same sum with floor division. -/
theorem dayOfWeek_eq (d m y : Int) (hd : 1 ≤ d) (hm : 1 ≤ m) (hy : 1 ≤ y) :
    (Date.mk d m y).dayOfWeek
      = ((d + 2 * (if m < 3 then m + 12 else m)
          + 3 * ((if m < 3 then m + 12 else m) + 1) / 5
          + (if m < 3 then y - 1 else y)
          + (if m < 3 then y - 1 else y) / 4
          - (if m < 3 then y - 1 else y) / 100
          + (if m < 3 then y - 1 else y) / 400) % 7 + 6) % 7 := by
  simp only [Date.dayOfWeek]
  have hM : 1 ≤ (if m < 3 then m + 12 else m) := by split_ifs <;> omega
  have hY : 0 ≤ (if m < 3 then y - 1 else y) := by split_ifs <;> omega
  generalize (if m < 3 then m + 12 else m) = M at hM ⊢
  generalize (if m < 3 then y - 1 else y) = Y at hY ⊢
  rw [Int.tdiv_eq_ediv (by omega : (0 : Int) ≤ 3 * (M + 1)) (by norm_num),
    Int.tdiv_eq_ediv hY (by norm_num), Int.tdiv_eq_ediv hY (by norm_num),
    Int.tdiv_eq_ediv hY (by norm_num)]
  have hS : 0 ≤ d + 2 * M + 3 * (M + 1) / 5 + Y + Y / 4 - Y / 100 + Y / 400 := by omega
  rw [Int.tmod_eq_emod hS (by norm_num)]
  rw [Int.tmod_eq_emod (by omega) (by norm_num)]

/-- The date left by `addDays(1)` on a valid date: the next day of the month,
or the first day of the next month, or January 1 of the next year. -/
theorem addDays_one (d m y : Int) (hx : (Date.mk d m y).Valid) :
    (Date.mk d m y).addDays 1
      = if d < daysInMonth m y then ⟨d + 1, m, y⟩
        else if m = 12 then ⟨1, 1, y + 1⟩ else ⟨1, m + 1, y⟩ := by
  obtain ⟨hy, hm, hm', hd, hd'⟩ := hx
  simp only [] at hy hm hm' hd hd'
  unfold Date.addDays
  by_cases h : d < daysInMonth m y
  · rw [if_pos h]
    exact addDaysLoop_of_le (by show d + 1 ≤ daysInMonth m y; omega)
  · rw [if_neg h]
    have e : d = daysInMonth m y := by omega
    rw [addDaysLoop_of_gt (by show d + 1 > daysInMonth m y; omega)]
    have hge := daysInMonth_ge
    by_cases h12 : m = 12
    · rw [if_pos h12]
      have es : addDaysStep ⟨d + 1, m, y⟩ = ⟨1, 1, y + 1⟩ := by
        simp only [addDaysStep]
        rw [if_pos (by omega)]
        simp only [Date.mk.injEq, and_true]
        omega
      rw [es]
      exact addDaysLoop_of_le (by show (1 : Int) ≤ daysInMonth 1 (y + 1); have := hge 1 (y + 1); omega)
    · rw [if_neg h12]
      have es : addDaysStep ⟨d + 1, m, y⟩ = ⟨1, m + 1, y⟩ := by
        simp only [addDaysStep]
        rw [if_neg (by omega)]
        simp only [Date.mk.injEq, and_true]
        omega
      rw [es]
      exact addDaysLoop_of_le (by show (1 : Int) ≤ daysInMonth (m + 1) y; have := hge (m + 1) y; omega)

/-- The step of the weekday sum from the last day of a month from March to
November to the first day of the next month. -/
theorem dayOfWeek_month_end_mid (m y : Int) (hm : 3 ≤ m) (hm' : m ≤ 11) (hy : 1 ≤ y) :
    (Date.mk 1 (m + 1) y).dayOfWeek = ((Date.mk (daysInMonth m y) m y).dayOfWeek + 1) % 7 := by
  have hge := daysInMonth_ge m y
  have eL := dayOfWeek_eq 1 (m + 1) y (by norm_num) (by omega) hy
  have eR := dayOfWeek_eq (daysInMonth m y) m y (by omega) (by omega) hy
  have c1 : ¬ (m < 3) := by omega
  have c2 : ¬ (m + 1 < 3) := by omega
  simp only [c1, c2, if_false] at eL eR
  rw [eL, eR]
  generalize y / 4 = q1
  generalize y / 100 = q2
  generalize y / 400 = q3
  interval_cases m <;> norm_num [daysInMonth] <;> omega

/-- The step of the weekday sum from 31 December to 1 January. -/
theorem dayOfWeek_year_end (y : Int) (hy : 1 ≤ y) :
    (Date.mk 1 1 (y + 1)).dayOfWeek = ((Date.mk 31 12 y).dayOfWeek + 1) % 7 := by
  have eL := dayOfWeek_eq 1 1 (y + 1) (by norm_num) (by norm_num) (by omega)
  have eR := dayOfWeek_eq 31 12 y (by norm_num) (by norm_num) hy
  have c1 : ¬ ((12 : Int) < 3) := by norm_num
  have c2 : (1 : Int) < 3 := by norm_num
  have e : y + 1 - 1 = y := by omega
  simp only [c1, c2, if_true, if_false, e] at eL eR
  rw [eL, eR]
  generalize y / 4 = q1
  generalize y / 100 = q2
  generalize y / 400 = q3
  omega

/-- The step of the weekday sum from 31 January to 1 February. -/
theorem dayOfWeek_january_end (y : Int) (hy : 1 ≤ y) :
    (Date.mk 1 2 y).dayOfWeek = ((Date.mk 31 1 y).dayOfWeek + 1) % 7 := by
  have eL := dayOfWeek_eq 1 2 y (by norm_num) (by norm_num) hy
  have eR := dayOfWeek_eq 31 1 y (by norm_num) (by norm_num) hy
  have c1 : (2 : Int) < 3 := by norm_num
  have c2 : (1 : Int) < 3 := by norm_num
  simp only [c1, c2, if_true] at eL eR
  rw [eL, eR]
  generalize (y - 1) / 4 = q1
  generalize (y - 1) / 100 = q2
  generalize (y - 1) / 400 = q3
  omega

/-- The step of the weekday sum from the last day of February, the 28th or the
29th, to 1 March. -/
theorem dayOfWeek_february_end (y : Int) (hy : 1 ≤ y) :
    (Date.mk 1 3 y).dayOfWeek = ((Date.mk (daysInMonth 2 y) 2 y).dayOfWeek + 1) % 7 := by
  have hge := daysInMonth_ge 2 y
  have hyl := yearLength_eq y hy
  have hd : daysInMonth 2 y = if isLeapYear y then 29 else 28 := by
    simp [daysInMonth]
  have eL := dayOfWeek_eq 1 3 y (by norm_num) (by norm_num) hy
  have eR := dayOfWeek_eq (daysInMonth 2 y) 2 y (by omega) (by norm_num) hy
  have c1 : ¬ ((3 : Int) < 3) := by norm_num
  have c2 : (2 : Int) < 3 := by norm_num
  simp only [c1, c2, if_true, if_false] at eL eR
  rw [eL, eR, hd]
  generalize y / 4 = q1 at hyl ⊢
  generalize y / 100 = q2 at hyl ⊢
  generalize y / 400 = q3 at hyl ⊢
  generalize (y - 1) / 4 = r1 at hyl ⊢
  generalize (y - 1) / 100 = r2 at hyl ⊢
  generalize (y - 1) / 400 = r3 at hyl ⊢
  split_ifs at hyl ⊢ <;> omega

/-- The step of the weekday sum across the end of a month. -/
theorem dayOfWeek_month_end (m y : Int) (hm : 1 ≤ m) (hm' : m ≤ 12) (hy : 1 ≤ y) :
    (Date.mk 1 (if m = 12 then 1 else m + 1) (if m = 12 then y + 1 else y)).dayOfWeek
      = ((Date.mk (daysInMonth m y) m y).dayOfWeek + 1) % 7 := by
  by_cases h12 : m = 12
  · rw [if_pos h12, if_pos h12, h12]
    have e : daysInMonth 12 y = 31 := by simp [daysInMonth]
    rw [e]
    exact dayOfWeek_year_end y hy
  · rw [if_neg h12, if_neg h12]
    by_cases h1 : m = 1
    · rw [h1]
      have e : daysInMonth 1 y = 31 := by simp [daysInMonth]
      rw [e]
      exact dayOfWeek_january_end y hy
    · by_cases h2 : m = 2
      · rw [h2]
        exact dayOfWeek_february_end y hy
      · exact dayOfWeek_month_end_mid m y (by omega) (by omega) hy

/-- With the weekday sum computed exactly, `dayOfWeek()` of a valid date lies in
0..6 and the date left by `addDays(1)` has day of week `(dayOfWeek(x) + 1) mod 7`,
also across the end of a month, the end of February and the end of a year. -/
theorem dayOfWeek_next_exact (x : Date) (hx : x.Valid) :
    0 ≤ x.dayOfWeek ∧ x.dayOfWeek ≤ 6
    ∧ (x.addDays 1).dayOfWeek = (x.dayOfWeek + 1) % 7 := by
  obtain ⟨d, m, y⟩ := x
  have hx' := hx
  obtain ⟨hy, hm, hm', hd, hd'⟩ := hx'
  simp only [] at hy hm hm' hd hd'
  have e0 := dayOfWeek_eq d m y hd hm hy
  refine ⟨by omega, by omega, ?_⟩
  rw [addDays_one d m y hx]
  by_cases h : d < daysInMonth m y
  · rw [if_pos h, dayOfWeek_eq (d + 1) m y (by omega) hm hy, e0]
    omega
  · rw [if_neg h]
    have e : d = daysInMonth m y := by omega
    have hend := dayOfWeek_month_end m y hm hm' hy
    rw [e]
    by_cases h12 : m = 12
    · rw [if_pos h12] at hend ⊢
      rw [if_pos h12] at hend
      exact hend
    · rw [if_neg h12] at hend ⊢
      rw [if_neg h12] at hend
      exact hend

/-! ## C18: failures of `fromString` -/

theorem takeWhile_dropWhile_digits (L rest : List Char) (hall : ∀ c ∈ L, c.isDigit = true)
    (hrest : rest.takeWhile Char.isDigit = []) :
    List.takeWhile Char.isDigit (L ++ rest) = L
    ∧ List.dropWhile Char.isDigit (L ++ rest) = rest := by
  constructor
  · rw [List.takeWhile_append_of_pos (by simpa using hall), hrest, List.append_nil]
  · rw [List.dropWhile_append_of_pos (by simpa using hall)]
    cases rest with
    | nil => rfl
    | cons r rs =>
      simp only [List.takeWhile_cons] at hrest
      by_cases hr : r.isDigit = true
      · simp [hr] at hrest
      · simp [List.dropWhile_cons, hr]

/-- Extraction of an `int` from a stream that starts with a minus sign and a
run of digits. -/
theorem extractInt_minus_digits (L rest : List Char) (hne : L ≠ [])
    (hall : ∀ c ∈ L, c.isDigit = true)
    (hrest : rest.takeWhile Char.isDigit = [])
    (hmin : INT_MIN ≤ -(digitsVal L : Int)) :
    extractInt ('-' :: (L ++ rest)) = some (-(digitsVal L : Int), rest) := by
  obtain ⟨ht, hdr⟩ := takeWhile_dropWhile_digits L rest hall hrest
  have hs : isSpace '-' = false := by decide
  have hsk : skipWs ('-' :: (L ++ rest)) = '-' :: (L ++ rest) := by
    simp [skipWs, hs]
  have hsg : readSign ('-' :: (L ++ rest)) = (true, L ++ rest) := by
    simp [readSign]
  have hemp : L.isEmpty = false := by
    cases L with
    | nil => exact absurd rfl hne
    | cons c cs => rfl
  unfold extractInt
  rw [hsk, hsg]
  simp only [ht, hdr, hemp, Bool.false_eq_true, if_false, if_true]
  have hrange : ¬ (-(digitsVal L : Int) < INT_MIN ∨ INT_MAX < -(digitsVal L : Int)) := by
    unfold INT_MAX
    omega
  simp [hrange]

/-- Extraction of an `int` reads back a field text and leaves what follows it. -/
theorem extractInt_fieldText (w : Nat) (v : Int) (rest : List Char)
    (hmin : INT_MIN ≤ v) (hmax : v ≤ INT_MAX)
    (hrest : rest.takeWhile Char.isDigit = []) :
    extractInt (fieldText w v ++ rest) = some (v, rest) := by
  unfold fieldText
  by_cases hv : 0 ≤ v
  · rw [if_pos hv]
    obtain ⟨hne, hall, hval⟩ := putInt_spec w v hv
    have h := extractInt_digits (putInt w '0' v) rest hne hall hrest (by rw [hval]; exact hmax)
    rw [hval] at h
    exact h
  · rw [if_neg hv]
    obtain ⟨hne, hall, hval⟩ := toDigits_spec v.natAbs
    have e : intRepr v = '-' :: Nat.toDigits 10 v.natAbs := by
      unfold intRepr
      rw [if_pos (by omega)]
    have hv' : -((digitsVal (Nat.toDigits 10 v.natAbs) : Nat) : Int) = v := by
      rw [hval]
      omega
    have h := extractInt_minus_digits (Nat.toDigits 10 v.natAbs) rest hne hall hrest
      (by rw [hv']; exact hmin)
    rw [hv'] at h
    rw [e, List.cons_append]
    exact h

/-- The text `<a>.<b>.<c>` is read back as the three integers and two dots. -/
theorem extractFields_fieldText (a b c : Int) (wa wb wc : Nat)
    (hr : (Date.mk a b c).InIntRange) :
    extractFields (fieldText wa a ++ '.' :: fieldText wb b ++ '.' :: fieldText wc c)
      = some (a, '.', b, '.', c) := by
  obtain ⟨a1, a2, b1, b2, c1, c2⟩ := hr
  have e1 := extractInt_fieldText wa a ('.' :: (fieldText wb b ++ '.' :: fieldText wc c)) a1 a2
    (takeWhile_isDigit_dot _)
  have e2 := extractInt_fieldText wb b ('.' :: fieldText wc c) b1 b2 (takeWhile_isDigit_dot _)
  have e3 := extractInt_fieldText wc c [] c1 c2 rfl
  rw [List.append_nil] at e3
  unfold extractFields
  simp only [List.append_assoc, List.cons_append]
  rw [e1]
  simp only [extractChar_dot]
  rw [e2]
  simp only [extractChar_dot]
  rw [e3]

/-- C18: for every date `x` and every text `<a>.<b>.<c>` with `int` values
`a`, `b`, `c` that do not form a valid date, `fromString` throws "Invalid date"
and leaves the fields of `x` equal to `(a, b, c)`; for every text from which
the three integers cannot be extracted, or whose separators are not both dots,
it throws "Invalid string format" and leaves `x` unchanged. -/
theorem C18_fromString_failures (x : Date) (a b c : Int) (wa wb wc : Nat)
    (hr : (Date.mk a b c).InIntRange) (hinv : ¬ (Date.mk a b c).Valid) :
    x.fromString (String.mk (fieldText wa a ++ '.' :: fieldText wb b ++ '.' :: fieldText wc c))
      = (Except.error DateError.invalidDate, ⟨a, b, c⟩)
    ∧ (∀ str : String, extractFields str.data = none →
        x.fromString str = (Except.error DateError.invalidFormat, x))
    ∧ (∀ (str : String) (d m y : Int) (dot1 dot2 : Char),
        extractFields str.data = some (d, dot1, m, dot2, y) → ¬ (dot1 = '.' ∧ dot2 = '.') →
        x.fromString str = (Except.error DateError.invalidFormat, x)) := by
  refine ⟨?_, ?_, ?_⟩
  · unfold Date.fromString
    simp only [extractFields_fieldText a b c wa wb wc hr]
    simp [validate_of_not_valid hinv]
  · intro str h
    unfold Date.fromString
    rw [h]
  · intro str d m y dot1 dot2 h hdots
    unfold Date.fromString
    rw [h]
    simp only [hdots, if_false]

/-- C18 at the text "31.02.2024", parsed into an object holding 01.01.2000,
with two texts that are not in the format. -/
theorem C18_fromString_failures_witness :
    (Date.mk 31 2 2024).InIntRange ∧ ¬ (Date.mk 31 2 2024).Valid
    ∧ (Date.mk 1 1 2000).fromString "31.02.2024"
        = (Except.error DateError.invalidDate, ⟨31, 2, 2024⟩)
    ∧ (Date.mk 1 1 2000).fromString "31-02-2024"
        = (Except.error DateError.invalidFormat, ⟨1, 1, 2000⟩)
    ∧ (Date.mk 1 1 2000).fromString "31.02."
        = (Except.error DateError.invalidFormat, ⟨1, 1, 2000⟩) :=
  ⟨by decide, by decide,
    (C18_fromString_failures ⟨1, 1, 2000⟩ 31 2 2024 2 2 0 (by decide) (by decide)).1,
    (C18_fromString_failures ⟨1, 1, 2000⟩ 31 2 2024 2 2 0 (by decide) (by decide)).2.2
      "31-02-2024" 31 2 2024 '-' '-' rfl (by decide),
    (C18_fromString_failures ⟨1, 1, 2000⟩ 31 2 2024 2 2 0 (by decide) (by decide)).2.1
      "31.02." rfl⟩

/-! ## 32-bit wrap-around -/

theorem wrap32_of_range (v : Int) (h1 : INT_MIN ≤ v) (h2 : v ≤ INT_MAX) : wrap32 v = v := by
  unfold INT_MIN at h1
  unfold INT_MAX at h2
  unfold wrap32
  omega

theorem wrap32_add_left (a b : Int) : wrap32 (wrap32 a + b) = wrap32 (a + b) := by
  unfold wrap32
  omega

theorem wrap32_sub_left (a b : Int) : wrap32 (wrap32 a - b) = wrap32 (a - b) := by
  unfold wrap32
  omega

theorem wrap32_sub_wrap (a b : Int) : wrap32 (wrap32 a - wrap32 b) = wrap32 (a - b) := by
  unfold wrap32
  omega

/-- The wrapping loop gives the exact sum wrapped around once. -/
theorem forSum32_wrap (f : Int → Int) (n : Nat) : ∀ (i a : Int),
    forSum32 f n i (wrap32 a) = wrap32 (forSum f n i a) := by
  induction n with
  | zero =>
    intro i a
    rfl
  | succ n ih =>
    intro i a
    rw [forSum32, forSum, wrap32_add_left, ih]

/-- The 32-bit day count is the exact day count wrapped around once. -/
theorem countDays32_eq_wrap (d m y : Int) (h1 : INT_MIN ≤ d) (h2 : d ≤ INT_MAX) :
    countDays32 d m y = wrap32 (countDays d m y) := by
  unfold countDays32 countDays
  simp only []
  have e : d = wrap32 d := (wrap32_of_range d h1 h2).symm
  conv_lhs => rw [e]
  rw [forSum32_wrap, forSum32_wrap]

/-- The 32-bit difference is the exact difference wrapped around once. -/
theorem opSub32_eq_wrap (a b : Date) (ha : a.Valid) (hb : b.Valid) :
    a.opSub32 b = wrap32 (a.opSub b) := by
  have ra1 : INT_MIN ≤ a.day := by
    have := ha.2.2.2.1
    unfold INT_MIN
    omega
  have ra2 : a.day ≤ INT_MAX := by
    have := ha.2.2.2.2
    have := daysInMonth_le a.month a.year
    unfold INT_MAX
    omega
  have rb1 : INT_MIN ≤ b.day := by
    have := hb.2.2.2.1
    unfold INT_MIN
    omega
  have rb2 : b.day ≤ INT_MAX := by
    have := hb.2.2.2.2
    have := daysInMonth_le b.month b.year
    unfold INT_MAX
    omega
  unfold Date.opSub32 Date.opSub
  rw [countDays32_eq_wrap _ _ _ ra1 ra2, countDays32_eq_wrap _ _ _ rb1 rb2, wrap32_sub_wrap]

/-- The exact day count of a valid date up to the year 5879610 fits an `int`. -/
theorem countDays_le_INT_MAX (x : Date) (hx : x.Valid) (hy : x.year ≤ 5879610) :
    1 ≤ countDays x.day x.month x.year ∧ countDays x.day x.month x.year ≤ INT_MAX := by
  obtain ⟨b1, b2, b3⟩ := dayOfYear_bounds x hx
  have h0 := daysBeforeYear_mono 1 x.year (le_refl _) hx.1
  rw [daysBeforeYear_one] at h0
  have hs := daysBeforeYear_succ x.year hx.1
  have hm := daysBeforeYear_mono (x.year + 1) 5879611 (by have := hx.1; omega) (by omega)
  have hc := daysBeforeYear_closed 5879610
  norm_num at hc
  rw [countDays_eq]
  unfold INT_MAX
  constructor
  · omega
  · rw [hc] at hm
    omega

/-! ## C13: order and sign of the difference -/

/-- C13, where it fails: 01.01.0001 is before 01.01.6000000, but the day count of
the later date, 2191454635, does not fit an `int`, and the difference that
`operator-` computes in 32 bits is +2103512662 instead of a negative number. -/
theorem C13_difference_wraps :
    (Date.mk 1 1 1).Valid ∧ (Date.mk 1 1 6000000).Valid
    ∧ (Date.mk 1 1 1).opLt ⟨1, 1, 6000000⟩ = true
    ∧ (Date.mk 1 1 6000000).opSub ⟨1, 1, 1⟩ = 2191454634
    ∧ (Date.mk 1 1 1).opSub32 ⟨1, 1, 6000000⟩ = 2103512662
    ∧ ¬ ((Date.mk 1 1 1).opLt ⟨1, 1, 6000000⟩ = true
          ↔ (Date.mk 1 1 1).opSub32 ⟨1, 1, 6000000⟩ < 0) := by
  have hc := daysBeforeYear_closed 5999999
  norm_num at hc
  have va : (Date.mk 1 1 1).Valid := by decide
  have vb : (Date.mk 1 1 6000000).Valid := by decide
  have hlt : (Date.mk 1 1 1).opLt ⟨1, 1, 6000000⟩ = true := by decide
  have e1 : (Date.mk 1 1 6000000).opSub ⟨1, 1, 1⟩ = 2191454634 := by
    unfold Date.opSub
    rw [countDays_eq, countDays_eq, daysBeforeMonth_one, daysBeforeMonth_one, hc,
      daysBeforeYear_one]
    norm_num
  have e2 : (Date.mk 1 1 1).opSub ⟨1, 1, 6000000⟩ = -2191454634 := by
    unfold Date.opSub at e1 ⊢
    omega
  have e3 : (Date.mk 1 1 1).opSub32 ⟨1, 1, 6000000⟩ = 2103512662 := by
    rw [opSub32_eq_wrap _ _ va vb, e2]
    decide
  refine ⟨va, vb, hlt, e1, e3, ?_⟩
  rw [e3]
  intro h
  have := h.mp hlt
  omega

/-- C13, amended: for valid dates `a` and `b` whose exact day difference lies in
the range of a 32-bit `int`, `a < b` exactly when the `int` that `operator-`
computes is negative, and `a == b` exactly when it is zero. -/
theorem C13_order_sign_int (a b : Date) (ha : a.Valid) (hb : b.Valid)
    (hlo : INT_MIN ≤ a.opSub b) (hhi : a.opSub b ≤ INT_MAX) :
    (a.opLt b = true ↔ a.opSub32 b < 0) ∧ (a.opEq b = true ↔ a.opSub32 b = 0) := by
  rw [opSub32_eq_wrap a b ha hb, wrap32_of_range _ hlo hhi]
  exact opLt_iff_exact_difference_neg a b ha hb

/-- C13, amended, at 31.12.2023 and 01.01.2024, one day apart. -/
theorem C13_order_sign_int_witness :
    (Date.mk 31 12 2023).Valid ∧ (Date.mk 1 1 2024).Valid
    ∧ INT_MIN ≤ (Date.mk 31 12 2023).opSub ⟨1, 1, 2024⟩
    ∧ (Date.mk 31 12 2023).opSub ⟨1, 1, 2024⟩ ≤ INT_MAX
    ∧ ((Date.mk 31 12 2023).opLt ⟨1, 1, 2024⟩ = true
        ↔ (Date.mk 31 12 2023).opSub32 ⟨1, 1, 2024⟩ < 0) :=
  have va : (Date.mk 31 12 2023).Valid := by decide
  have vb : (Date.mk 1 1 2024).Valid := by decide
  have hr : INT_MIN ≤ (Date.mk 31 12 2023).opSub ⟨1, 1, 2024⟩
      ∧ (Date.mk 31 12 2023).opSub ⟨1, 1, 2024⟩ ≤ INT_MAX := by
    have h1 := countDays_le_INT_MAX ⟨31, 12, 2023⟩ va (by decide)
    have h2 := countDays_le_INT_MAX ⟨1, 1, 2024⟩ vb (by decide)
    unfold INT_MAX at h1 h2
    unfold Date.opSub INT_MIN INT_MAX
    simp only [] at h1 h2 ⊢
    omega
  ⟨va, vb, hr.1, hr.2, (C13_order_sign_int ⟨31, 12, 2023⟩ ⟨1, 1, 2024⟩ va vb hr.1 hr.2).1⟩

/-! ## The weekday sum in 32 bits -/

theorem tmod_seven_bounds (a : Int) : -6 ≤ a.tmod 7 ∧ a.tmod 7 ≤ 6 := by
  rcases a with m | m
  · have e : (Int.ofNat m).tmod 7 = ((m % 7 : Nat) : Int) := rfl
    rw [e]
    omega
  · have e : (Int.negSucc m).tmod 7 = -(((m + 1) % 7 : Nat) : Int) := rfl
    rw [e]
    omega

theorem dayOfWeek_eq_weekdaySum (x : Date) :
    x.dayOfWeek = ((weekdaySum x).tmod 7 + 6).tmod 7 := rfl

/-- The 32-bit sum of `dayOfWeek` is the exact sum wrapped around once: on a
date with month in 1..12 and year in 1..INT_MAX,
`dayOfWeek32 = ((wrap32 (weekdaySum x)) % 7 + 6) % 7`. -/
theorem dayOfWeek32_eq (x : Date) (hm : 1 ≤ x.month) (hm' : x.month ≤ 12)
    (hy : 1 ≤ x.year) (hy' : x.year ≤ INT_MAX) :
    x.dayOfWeek32 = ((wrap32 (weekdaySum x)).tmod 7 + 6).tmod 7 := by
  unfold INT_MAX at hy'
  have r1 : wrap32 (x.month + 12) = x.month + 12 :=
    wrap32_of_range _ (by unfold INT_MIN; omega) (by unfold INT_MAX; omega)
  have r2 : wrap32 (x.year - 1) = x.year - 1 :=
    wrap32_of_range _ (by unfold INT_MIN; omega) (by unfold INT_MAX; omega)
  have key : ∀ (d M Y : Int), 1 ≤ M → M ≤ 24 →
      (wrap32 ((wrap32 (wrap32 (wrap32 (wrap32 (wrap32 (wrap32 (d + wrap32 (2 * M))
          + (wrap32 (3 * wrap32 (M + 1))).tdiv 5) + Y) + Y.tdiv 4) - Y.tdiv 100)
          + Y.tdiv 400)).tmod 7 + 6)).tmod 7
        = ((wrap32 (d + 2 * M + (3 * (M + 1)).tdiv 5 + Y + Y.tdiv 4 - Y.tdiv 100
            + Y.tdiv 400)).tmod 7 + 6).tmod 7 := by
    intro d M Y h1 h2
    have e1 : wrap32 (2 * M) = 2 * M :=
      wrap32_of_range _ (by unfold INT_MIN; omega) (by unfold INT_MAX; omega)
    have e2 : wrap32 (M + 1) = M + 1 :=
      wrap32_of_range _ (by unfold INT_MIN; omega) (by unfold INT_MAX; omega)
    have e3 : wrap32 (3 * (M + 1)) = 3 * (M + 1) :=
      wrap32_of_range _ (by unfold INT_MIN; omega) (by unfold INT_MAX; omega)
    rw [e1, e2, e3]
    generalize (3 * (M + 1)).tdiv 5 = t5
    generalize Y.tdiv 4 = y4
    generalize Y.tdiv 100 = y100
    generalize Y.tdiv 400 = y400
    have s1 : wrap32 (wrap32 (d + 2 * M) + t5) = wrap32 (d + 2 * M + t5) := wrap32_add_left _ _
    have s2 : wrap32 (wrap32 (d + 2 * M + t5) + Y) = wrap32 (d + 2 * M + t5 + Y) :=
      wrap32_add_left _ _
    have s3 : wrap32 (wrap32 (d + 2 * M + t5 + Y) + y4) = wrap32 (d + 2 * M + t5 + Y + y4) :=
      wrap32_add_left _ _
    have s4 : wrap32 (wrap32 (d + 2 * M + t5 + Y + y4) - y100)
        = wrap32 (d + 2 * M + t5 + Y + y4 - y100) := wrap32_sub_left _ _
    have s5 : wrap32 (wrap32 (d + 2 * M + t5 + Y + y4 - y100) + y400)
        = wrap32 (d + 2 * M + t5 + Y + y4 - y100 + y400) := wrap32_add_left _ _
    rw [s1, s2, s3, s4, s5]
    have hb := tmod_seven_bounds (wrap32 (d + 2 * M + t5 + Y + y4 - y100 + y400))
    rw [wrap32_of_range _ (by unfold INT_MIN; omega) (by unfold INT_MAX; omega)]
  unfold Date.dayOfWeek32 weekdaySum
  simp only []
  by_cases h3 : x.month < 3
  · simp only [h3, if_true, r1, r2]
    exact key x.day (x.month + 12) (x.year - 1) (by omega) (by omega)
  · simp only [h3, if_false]
    exact key x.day x.month x.year (by omega) (by omega)

/-- The exact weekday sum of a valid date is at least its year. -/
theorem weekdaySum_ge_year (x : Date) (hx : x.Valid) :
    0 ≤ weekdaySum x ∧ x.year ≤ weekdaySum x := by
  obtain ⟨hy, hm, hm', hd, _⟩ := hx
  unfold weekdaySum
  simp only []
  have hM : 1 ≤ (if x.month < 3 then x.month + 12 else x.month) := by split_ifs <;> omega
  have hY : 0 ≤ (if x.month < 3 then x.year - 1 else x.year) := by split_ifs <;> omega
  have hMY : x.year + 2 ≤ 2 * (if x.month < 3 then x.month + 12 else x.month)
      + (if x.month < 3 then x.year - 1 else x.year) := by split_ifs <;> omega
  generalize (if x.month < 3 then x.month + 12 else x.month) = M at hM hMY ⊢
  generalize (if x.month < 3 then x.year - 1 else x.year) = Y at hY hMY ⊢
  rw [Int.tdiv_eq_ediv (by omega : (0 : Int) ≤ 3 * (M + 1)) (by norm_num),
    Int.tdiv_eq_ediv hY (by norm_num), Int.tdiv_eq_ediv hY (by norm_num),
    Int.tdiv_eq_ediv hY (by norm_num)]
  constructor <;> omega

/-- On a valid date whose exact weekday sum fits an `int`, the 32-bit
`dayOfWeek` is the exact one. -/
theorem dayOfWeek32_eq_exact (x : Date) (hx : x.Valid) (h : weekdaySum x ≤ INT_MAX) :
    x.dayOfWeek32 = x.dayOfWeek := by
  obtain ⟨h0, hy⟩ := weekdaySum_ge_year x hx
  rw [dayOfWeek32_eq x hx.2.1 hx.2.2.1 hx.1 (by omega),
    wrap32_of_range _ (by unfold INT_MIN; omega) h, dayOfWeek_eq_weekdaySum]

/-- The exact weekday sum of a valid date up to the year 1700000000 fits an
`int`. -/
theorem weekdaySum_le_INT_MAX (x : Date) (hx : x.Valid) (hy1 : x.year ≤ 1700000000) :
    weekdaySum x ≤ INT_MAX := by
  obtain ⟨hy, hm, hm', hd, hd'⟩ := hx
  have h31 := daysInMonth_le x.month x.year
  unfold weekdaySum INT_MAX
  simp only []
  have hM : 1 ≤ (if x.month < 3 then x.month + 12 else x.month)
      ∧ (if x.month < 3 then x.month + 12 else x.month) ≤ 14 := by split_ifs <;> omega
  have hY : 0 ≤ (if x.month < 3 then x.year - 1 else x.year)
      ∧ (if x.month < 3 then x.year - 1 else x.year) ≤ 1700000000 := by split_ifs <;> omega
  generalize (if x.month < 3 then x.month + 12 else x.month) = M at hM ⊢
  generalize (if x.month < 3 then x.year - 1 else x.year) = Y at hY ⊢
  rw [Int.tdiv_eq_ediv (by omega : (0 : Int) ≤ 3 * (M + 1)) (by norm_num),
    Int.tdiv_eq_ediv hY.1 (by norm_num), Int.tdiv_eq_ediv hY.1 (by norm_num),
    Int.tdiv_eq_ediv hY.1 (by norm_num)]
  omega

/-! ## C15: the day of the week of the next day -/

/-- C15, where it fails: on the valid date 27.06.1728357026 the weekday sum is
2147483647 and `dayOfWeek()` is 0; on the next day the sum is 2147483648, which
wraps around in a 32-bit `int`, and `dayOfWeek()` is 4 instead of 1. -/
theorem C15_weekday_sum_wraps :
    (Date.mk 27 6 1728357026).Valid ∧ (Date.mk 27 6 1728357026).InIntRange
    ∧ (Date.mk 27 6 1728357026).addDays 1 = ⟨28, 6, 1728357026⟩
    ∧ weekdaySum ⟨27, 6, 1728357026⟩ = 2147483647
    ∧ weekdaySum ⟨28, 6, 1728357026⟩ = 2147483648
    ∧ (Date.mk 27 6 1728357026).dayOfWeek32 = 0
    ∧ ((Date.mk 27 6 1728357026).addDays 1).dayOfWeek32 = 4
    ∧ ¬ (((Date.mk 27 6 1728357026).addDays 1).dayOfWeek32
          = ((Date.mk 27 6 1728357026).dayOfWeek32 + 1) % 7) := by
  have va : (Date.mk 27 6 1728357026).Valid := by decide
  have e : (Date.mk 27 6 1728357026).addDays 1 = ⟨28, 6, 1728357026⟩ := by
    rw [addDays_one 27 6 1728357026 va]
    decide
  have d0 : (Date.mk 27 6 1728357026).dayOfWeek32 = 0 := by decide
  have d1 : (Date.mk 28 6 1728357026).dayOfWeek32 = 4 := by decide
  refine ⟨va, by decide, e, by decide, by decide, d0, ?_, ?_⟩
  · rw [e]
    exact d1
  · rw [e, d0, d1]
    decide

/-- C15, amended: for a valid date `x` such that the weekday sum
`d + 2m + 3(m+1)/5 + y + y/4 - y/100 + y/400` of `x` and of the next day does
not exceed `INT_MAX`, `dayOfWeek()` lies in 0..6 and the date left by
`x.addDays(1)` has day of week `(dayOfWeek(x) + 1) mod 7`, also across the end
of a month, the end of February and the end of a year. -/
theorem C15_dayOfWeek_next_int (x : Date) (hx : x.Valid)
    (h1 : weekdaySum x ≤ INT_MAX) (h2 : weekdaySum (x.addDays 1) ≤ INT_MAX) :
    0 ≤ x.dayOfWeek32 ∧ x.dayOfWeek32 ≤ 6
    ∧ (x.addDays 1).dayOfWeek32 = (x.dayOfWeek32 + 1) % 7 := by
  have hv : (x.addDays 1).Valid := by
    unfold Date.addDays
    exact addDaysLoop_valid _ hx.1 hx.2.1 hx.2.2.1
      (by show 1 ≤ x.day + 1; have := hx.2.2.2.1; omega)
  rw [dayOfWeek32_eq_exact x hx h1, dayOfWeek32_eq_exact _ hv h2]
  exact dayOfWeek_next_exact x hx

/-- C15, amended, at 28.02.2023, 29.02.2024 and 31.12.2023. -/
theorem C15_dayOfWeek_next_int_witness :
    ((Date.mk 28 2 2023).Valid ∧ weekdaySum ⟨28, 2, 2023⟩ ≤ INT_MAX
      ∧ weekdaySum ((Date.mk 28 2 2023).addDays 1) ≤ INT_MAX
      ∧ ((Date.mk 28 2 2023).addDays 1).dayOfWeek32 = ((Date.mk 28 2 2023).dayOfWeek32 + 1) % 7)
    ∧ ((Date.mk 29 2 2024).Valid ∧ weekdaySum ⟨29, 2, 2024⟩ ≤ INT_MAX
      ∧ weekdaySum ((Date.mk 29 2 2024).addDays 1) ≤ INT_MAX
      ∧ ((Date.mk 29 2 2024).addDays 1).dayOfWeek32 = ((Date.mk 29 2 2024).dayOfWeek32 + 1) % 7)
    ∧ ((Date.mk 31 12 2023).Valid ∧ weekdaySum ⟨31, 12, 2023⟩ ≤ INT_MAX
      ∧ weekdaySum ((Date.mk 31 12 2023).addDays 1) ≤ INT_MAX
      ∧ ((Date.mk 31 12 2023).addDays 1).dayOfWeek32
          = ((Date.mk 31 12 2023).dayOfWeek32 + 1) % 7) :=
  have n1 : weekdaySum ((Date.mk 28 2 2023).addDays 1) ≤ INT_MAX := by
    rw [addDays_one 28 2 2023 (by decide)]
    decide
  have n2 : weekdaySum ((Date.mk 29 2 2024).addDays 1) ≤ INT_MAX := by
    rw [addDays_one 29 2 2024 (by decide)]
    decide
  have n3 : weekdaySum ((Date.mk 31 12 2023).addDays 1) ≤ INT_MAX := by
    rw [addDays_one 31 12 2023 (by decide)]
    decide
  ⟨⟨by decide, by decide, n1,
      (C15_dayOfWeek_next_int ⟨28, 2, 2023⟩ (by decide) (by decide) n1).2.2⟩,
    ⟨by decide, by decide, n2,
      (C15_dayOfWeek_next_int ⟨29, 2, 2024⟩ (by decide) (by decide) n2).2.2⟩,
    ⟨by decide, by decide, n3,
      (C15_dayOfWeek_next_int ⟨31, 12, 2023⟩ (by decide) (by decide) n3).2.2⟩⟩

end DateModel
